import Mathlib

/-!
Verification development for the telegram-chat-analyzer pipeline.

The Python sources are shallowly embedded:
* JSON values become the inductive `JVal`; Python `dict` operations become
  association-list operations that preserve insertion order, as CPython does.
* `datetime` values become the record `DT`; calendar conversions use the
  standard civil-from-days / days-from-civil algorithms, which agree with
  CPython for the proleptic Gregorian calendar it uses.  CPython restricts
  `datetime` to years 1..9999; that bound is modelled explicitly.
* Machine integers are `Int` (Python ints are unbounded, so no wrap-around).
* Fallible code returns `Option` / `Except`.
* `datetime.fromisoformat` is embedded for the ISO-8601 subset that the
  pipeline itself produces and consumes (`YYYY-MM-DD`, optionally followed by
  `THH:MM[:SS]` with `T` or space as separator and an optional `±HH:MM`
  offset); on that subset the embedding agrees with CPython.
-/

namespace TCA

/-- Association-list lookup, first match wins (Python dict keys are unique, so
this agrees with `d.get(k)` on dictionaries decoded from JSON). -/
def alookup {α β : Type} [DecidableEq α] : List (α × β) → α → Option β
  | [], _ => none
  | (k', v) :: rest, k => if k' = k then some v else alookup rest k

/-- Association-list update mirroring `d[k] = v` on a CPython dict: an existing
key keeps its position, a new key is appended at the end. -/
def aset {α β : Type} [DecidableEq α] : List (α × β) → α → β → List (α × β)
  | [], k, v => [(k, v)]
  | (k', v') :: rest, k, v =>
    if k' = k then (k', v) :: rest else (k', v') :: aset rest k v

/-- Counter increment mirroring `collections.Counter` / `defaultdict(int)`
updates: bump an existing key in place, else append the key with count 1. -/
def bump {α : Type} [DecidableEq α] : List (α × Nat) → α → List (α × Nat)
  | [], k => [(k, 1)]
  | (k', v) :: rest, k =>
    if k' = k then (k', v + 1) :: rest else (k', v) :: bump rest k

/-- Counter increment by an arbitrary integer amount, for reaction tallies
(`emoji_counter[key] += cnt` where `cnt` is an `int`). -/
def bumpBy {α : Type} [DecidableEq α] : List (α × Int) → α → Int → List (α × Int)
  | [], k, n => [(k, n)]
  | (k', v) :: rest, k, n =>
    if k' = k then (k', v + n) :: rest else (k', v) :: bumpBy rest k n

/-- Insertion into an insertion-ordered set, mirroring `set.add`: only the
membership structure matters downstream (the code only takes lengths and
membership of these sets). -/
def sadd {α : Type} [DecidableEq α] (l : List α) (x : α) : List α :=
  if x ∈ l then l else l ++ [x]

/-- Stable sort by a Boolean preorder, implemented as insertion sort.  CPython
`sorted` is a stable sort; any two stable sorts of the same list by the same
total preorder agree, so this is observationally the sort the source uses. -/
def ssort {α : Type} (le : α → α → Bool) : List α → List α
  | [] => []
  | x :: xs => insertSorted le x (ssort le xs)
where
  insertSorted (le : α → α → Bool) (x : α) : List α → List α
    | [] => [x]
    | y :: ys => if le y x then y :: insertSorted le x ys else x :: y :: ys

/-- JSON values as decoded by `json.load`.  Numbers in the fields this pipeline
touches are integers, so only integer numbers are modelled. -/
inductive JVal where
  | null
  | bool (b : Bool)
  | int (n : Int)
  | str (s : String)
  | arr (xs : List JVal)
  | obj (kvs : List (String × JVal))

/-- Dictionary lookup `m.get(k)` on a JSON object given as its field list. -/
def jget (kvs : List (String × JVal)) (k : String) : Option JVal :=
  alookup kvs k

/-- Dictionary update `m[k] = v`. -/
def jset (kvs : List (String × JVal)) (k : String) (v : JVal) :
    List (String × JVal) :=
  aset kvs k v

/-- Membership test `k in m`. -/
def jhas (kvs : List (String × JVal)) (k : String) : Bool :=
  (jget kvs k).isSome

/-- Python truthiness of a JSON value. -/
def pyTruthy : JVal → Bool
  | .null => false
  | .bool b => b
  | .int n => n ≠ 0
  | .str s => s ≠ ""
  | .arr xs => !xs.isEmpty
  | .obj kvs => !kvs.isEmpty

/-- Python `str()` of a JSON scalar.  Lists and objects get a placeholder:
the only use is as a lookup key into `MEDIA_MAP`, whose keys are plain words,
so any rendering of a collection misses the map and yields `"other"`, exactly
as CPython's rendering would. -/
def pyStr : JVal → String
  | .null => "None"
  | .bool true => "True"
  | .bool false => "False"
  | .int n => toString n
  | .str s => s
  | .arr _ => "<collection>"
  | .obj _ => "<collection>"

/-! ## Datetime model (CPython `datetime`, proleptic Gregorian, years 1..9999) -/

/-- A naive CPython `datetime` down to seconds (the pipeline never uses
microseconds: `isoformat(timespec="seconds")`). -/
structure DT where
  year : Int
  month : Nat
  day : Nat
  hour : Nat
  minute : Nat
  second : Nat
deriving DecidableEq, Repr

/-- Gregorian leap-year rule. -/
def isLeap (y : Int) : Bool :=
  y % 4 = 0 && (y % 100 ≠ 0 || y % 400 = 0)

/-- Number of days in a month. -/
def daysInMonth (y : Int) (m : Nat) : Nat :=
  match m with
  | 1 => 31 | 2 => if isLeap y then 29 else 28 | 3 => 31 | 4 => 30
  | 5 => 31 | 6 => 30 | 7 => 31 | 8 => 31
  | 9 => 30 | 10 => 31 | 11 => 30 | 12 => 31
  | _ => 0

/-- The datetime is a valid CPython `datetime` (CPython validates components
on construction and restricts years to 1..9999). -/
def validDT (d : DT) : Bool :=
  1 ≤ d.year && d.year ≤ 9999 && 1 ≤ d.month && d.month ≤ 12 &&
  1 ≤ d.day && d.day ≤ daysInMonth d.year d.month &&
  d.hour ≤ 23 && d.minute ≤ 59 && d.second ≤ 59

/-- Days since the Unix epoch of a civil date (standard days-from-civil
algorithm, agreeing with CPython's `date.toordinal` up to the epoch offset). -/
def daysFromCivil (y : Int) (m d : Nat) : Int :=
  let y' : Int := if m ≤ 2 then y - 1 else y
  let era : Int := y'.fdiv 400
  let yoe : Int := y' - era * 400
  let mp : Int := if 2 < m then (m : Int) - 3 else (m : Int) + 9
  let doy : Int := (153 * mp + 2) / 5 + (d : Int) - 1
  let doe : Int := yoe * 365 + yoe / 4 - yoe / 100 + doy
  era * 146097 + doe - 719468

/-- Civil date from days since the Unix epoch (standard civil-from-days
algorithm, the inverse of `daysFromCivil`). -/
def civilFromDays (z0 : Int) : Int × Nat × Nat :=
  let z := z0 + 719468
  let era : Int := z.fdiv 146097
  let doe : Int := z - era * 146097
  let yoe : Int := (doe - doe / 1460 + doe / 36524 - doe / 146096) / 365
  let y : Int := yoe + era * 400
  let doy : Int := doe - (365 * yoe + yoe / 4 - yoe / 100)
  let mp : Int := (5 * doy + 2) / 153
  let d : Int := doy - (153 * mp + 2) / 5 + 1
  let m : Int := if mp < 10 then mp + 3 else mp - 9
  (if m ≤ 2 then y + 1 else y, m.toNat, d.toNat)

/-- Seconds since the Unix epoch of a naive datetime read as UTC. -/
def dtToSecs (d : DT) : Int :=
  daysFromCivil d.year d.month d.day * 86400 +
    (d.hour : Int) * 3600 + (d.minute : Int) * 60 + (d.second : Int)

/-- Naive datetime from seconds since the Unix epoch (UTC). -/
def dtFromSecs (t : Int) : DT :=
  let days := t.fdiv 86400
  let rem := (t - days * 86400).toNat
  let c := civilFromDays days
  ⟨c.1, c.2.1, c.2.2, rem / 3600, rem % 3600 / 60, rem % 60⟩

/-- Two zero-padded decimal digits (`%02d` for values below 100, which is the
only range the callers use). -/
def pad2c (n : Nat) : List Char :=
  [Nat.digitChar (n / 10 % 10), Nat.digitChar (n % 10)]

/-- Four zero-padded decimal digits (`%04d` for values below 10000). -/
def pad4c (n : Nat) : List Char :=
  [Nat.digitChar (n / 1000 % 10), Nat.digitChar (n / 100 % 10),
   Nat.digitChar (n / 10 % 10), Nat.digitChar (n % 10)]

/-- CPython `datetime.isoformat(timespec="seconds")` for a timezone-aware
datetime whose UTC offset is `tzMin` minutes. -/
def isoformatSec (d : DT) (tzMin : Int) : String :=
  String.mk
    (pad4c d.year.toNat ++ '-' :: pad2c d.month ++ '-' :: pad2c d.day ++
     'T' :: pad2c d.hour ++ ':' :: pad2c d.minute ++ ':' :: pad2c d.second ++
     (if tzMin < 0 then '-' else '+') ::
       pad2c (tzMin.natAbs / 60) ++ ':' :: pad2c (tzMin.natAbs % 60))

/-! ## Parsers (`utils.py`) -/

/-- Numeric value of a decimal digit character. -/
def digitVal (c : Char) : Option Nat :=
  if c.isDigit then some (c.toNat - 48) else none

/-- Two-digit decimal number. -/
def num2 (a b : Char) : Option Nat := do
  let x ← digitVal a
  let y ← digitVal b
  pure (10 * x + y)

/-- Four-digit decimal number. -/
def num4 (a b c d : Char) : Option Nat := do
  let x ← num2 a b
  let y ← num2 c d
  pure (100 * x + y)

/-- Validate and build a `DT` the way the CPython `datetime` constructor does. -/
def mkDT (y mo d h mi s : Nat) : Option DT :=
  let dt : DT := ⟨(y : Int), mo, d, h, mi, s⟩
  if validDT dt then some dt else none

/-- Optional `±HH:MM` UTC offset suffix of an ISO string, in minutes. -/
def parseTz (cs : List Char) : Option (Option Int) :=
  match cs with
  | [] => some none
  | sign :: h1 :: h2 :: ':' :: m1 :: m2 :: [] => do
    let h ← num2 h1 h2
    let m ← num2 m1 m2
    if (sign = '+' || sign = '-') && h ≤ 23 && m ≤ 59 then
      let total : Int := (h : Int) * 60 + (m : Int)
      some (some (if sign = '-' then -total else total))
    else none
  | _ => none

/-- Embedding of `datetime.fromisoformat` on the ISO-8601 subset the pipeline
produces: a `YYYY-MM-DD` date, optionally `T`- or space-separated `HH:MM` or
`HH:MM:SS` time, optionally a `±HH:MM` offset.  Returns the datetime and its
offset in minutes; component validation matches CPython. -/
def fromIso (cs : List Char) : Option (DT × Option Int) :=
  match cs with
  | y1 :: y2 :: y3 :: y4 :: '-' :: m1 :: m2 :: '-' :: d1 :: d2 :: rest =>
    match num4 y1 y2 y3 y4, num2 m1 m2, num2 d1 d2 with
    | some y, some mo, some d =>
      match rest with
      | [] =>
        match mkDT y mo d 0 0 0 with
        | some dt => some (dt, none)
        | none => none
      | sep :: h1 :: h2 :: ':' :: mi1 :: mi2 :: tail =>
        if sep = 'T' || sep = ' ' then
          match num2 h1 h2, num2 mi1 mi2 with
          | some h, some mi =>
            match tail with
            | ':' :: s1 :: s2 :: tz =>
              match num2 s1 s2 with
              | some s =>
                match mkDT y mo d h mi s, parseTz tz with
                | some dt, some o => some (dt, o)
                | _, _ => none
              | none => none
            | _ =>
              match mkDT y mo d h mi 0, parseTz tail with
              | some dt, some o => some (dt, o)
              | _, _ => none
          | _, _ => none
        else none
      | _ => none
    | _, _, _ => none
  | _ => none

/-- Embedding of `utils.parse_iso_dt_naive`: drop every `Z`, crudely strip a
trailing `±HH:MM` offset when the sixth-from-last character is a sign, parse
with `fromisoformat`, and discard any remaining timezone information. -/
def parse_iso_dt_naive (s : String) : Option DT :=
  if s = "" then none
  else
    let cs0 := s.data.filter (fun c => c ≠ 'Z')
    let cs :=
      if 6 < cs0.length &&
          ((cs0.get? (cs0.length - 6) = some '+') ||
           (cs0.get? (cs0.length - 6) = some '-')) then
        cs0.take (cs0.length - 6)
      else cs0
    match fromIso cs with
    | some (d, _) => some d
    | none => none

/-- Embedding of CPython `int(s)` on the plain sign-and-digits subset. -/
def parseIntStr (s : String) : Option Int :=
  let digits (ds : List Char) : Option Int :=
    if ds ≠ [] && ds.all Char.isDigit then
      some ((ds.foldl (fun a c => a * 10 + (c.toNat - 48)) 0 : Nat) : Int)
    else none
  match s.data with
  | '-' :: ds => (digits ds).map (fun n => -n)
  | '+' :: ds => digits ds
  | ds => digits ds

/-- Embedding of `utils.dt_from_unixtime_str`: empty string is falsy, the
string is parsed as an integer, and `datetime.fromtimestamp(_, tz=utc)` is
taken; `fromtimestamp` raises outside the representable range and the bare
`except` turns every failure into `None`. -/
def dt_from_unixtime_str (s : String) : Option DT :=
  if s = "" then none
  else
    match parseIntStr s with
    | none => none
    | some t =>
      let d := dtFromSecs t
      if validDT d then some d else none

/-- Embedding of `utils.apply_shift_and_format`: add `shift_hours` hours to
the naive datetime and format it with that same shift as the UTC offset.  The
`datetime + timedelta` addition (line 160) raises `OverflowError` outside
years 1..9999, and the subsequent `timezone(timedelta(hours=shift_hours))`
construction (line 162) raises `ValueError` unless the offset is strictly
between -24 and +24 hours; the caller catches neither, hence the `Except`.
The addition runs first, so `OverflowError` takes precedence. -/
def apply_shift_and_format (dt_naive : Option DT) (shift_hours : Int) :
    Except String (Option String) :=
  match dt_naive with
  | none => .ok none
  | some dt =>
    let shifted := dtFromSecs (dtToSecs dt + shift_hours * 3600)
    if 1 ≤ shifted.year && shifted.year ≤ 9999 then
      if -24 < shift_hours && shift_hours < 24 then
        .ok (some (isoformatSec shifted (shift_hours * 60)))
      else .error "ValueError"
    else .error "OverflowError"

/-- Embedding of `utils.flatten_text`: a string passes through, a list
concatenates its string fragments and the `text` fields of its object
fragments, anything else flattens to the empty string. -/
def flatten_text : JVal → String
  | .str s => s
  | .arr xs =>
    String.join (xs.filterMap fun seg =>
      match seg with
      | .str s => some s
      | .obj kvs =>
        match jget kvs "text" with
        | some (.str t) => some t
        | _ => none
      | _ => none)
  | _ => ""

/-- Embedding of `utils.MEDIA_MAP`. -/
def MEDIA_MAP : List (String × String) :=
  [("photo", "photo"), ("video", "video"), ("video_file", "video"),
   ("audio_file", "audio_file"), ("voice_message", "voice_message"),
   ("video_message", "video_message"), ("sticker", "sticker"),
   ("animation", "animation (GIF)"), ("gif", "animation (GIF)"),
   ("document", "document"), ("file", "document"), ("poll", "poll"),
   ("contact", "contact"), ("location", "location"), ("game", "game")]

/-! ## Normalizer (`step2_normalize.py`) -/

/-- Lookup into `MEDIA_MAP` with the `"other"` default of
`MEDIA_MAP.get(str(media_type), "other")`. -/
def mediaMapGet (k : String) : String :=
  (alookup MEDIA_MAP k).getD "other"

/-- Media categorization of one message, lines 85-98 of the normalizer: an
explicit non-empty `media_type` goes through `MEDIA_MAP`, otherwise the
fallback heuristics poll-object / truthy sticker-emoji / photo-key apply. -/
def mediaCatOf (kvs : List (String × JVal)) : Option String :=
  let mt := jget kvs "media_type"
  let excluded : Bool :=
    match mt with
    | none => true
    | some .null => true
    | some (.str "") => true
    | some _ => false
  if excluded then
    match jget kvs "poll" with
    | some (.obj _) => some "poll"
    | _ =>
      if pyTruthy ((jget kvs "sticker_emoji").getD .null) then some "sticker"
      else if jhas kvs "photo" then some "photo"
      else none
  else some (mediaMapGet (pyStr (mt.getD .null)))

/-- Date resolution of one message, lines 58-63 of the normalizer: an ISO
`date` string is preferred, an epoch-seconds `date_unixtime` string is the
fallback. -/
def dtNaiveOf (kvs : List (String × JVal)) : Option DT :=
  let first :=
    match jget kvs "date" with
    | some (.str s) => parse_iso_dt_naive s
    | _ => none
  match first with
  | some d => some d
  | none =>
    match jget kvs "date_unixtime" with
    | some (.str s) => dt_from_unixtime_str s
    | _ => none

/-- Edit-timestamp resolution, lines 74-79 of the normalizer: attempted only
when an `edited` or `edited_unixtime` key exists; the epoch-seconds string is
tried first and the ISO string is the fallback. -/
def edtNaiveOf (kvs : List (String × JVal)) : Option DT :=
  let first :=
    match jget kvs "edited_unixtime" with
    | some (.str s) => dt_from_unixtime_str s
    | _ => none
  match first with
  | some d => some d
  | none =>
    match jget kvs "edited" with
    | some (.str s) => parse_iso_dt_naive s
    | _ => none

/-- Normalization of a single message record (the body of the `for m in msgs`
loop of `normalize_json`).  A non-object entry makes `m.get` raise
`AttributeError`, which nothing catches.  The returned Bool reports whether
the message received a non-null `date_norm` (the `changed` tally). -/
def normalizeMsg (shift : Int) : JVal → Except String (JVal × Bool)
  | .obj kvs => do
    let date_norm ← apply_shift_and_format (dtNaiveOf kvs) shift
    let nd0 : List (String × JVal) :=
      [("date_norm", (date_norm.map JVal.str).getD .null)]
    let nd1 ←
      if jhas kvs "edited" || jhas kvs "edited_unixtime" then
        match edtNaiveOf kvs with
        | some d => do
          let e ← apply_shift_and_format (some d) shift
          pure (nd0 ++ [("edited_norm", ((e.map JVal.str).getD .null))])
        | none => pure nd0
      else pure nd0
    let nd2 := nd1 ++
      [("text_plain", JVal.str (flatten_text ((jget kvs "text").getD .null)))]
    let nd3 := nd2 ++
      [("media_cat", ((mediaCatOf kvs).map JVal.str).getD .null)]
    pure (JVal.obj (jset kvs "meta_norm" (.obj nd3)), date_norm.isSome)
  | _ => .error "AttributeError"

/-- Embedding of `normalize_json` on an already-loaded document, with the
hour shift already extracted from the filename (filename parsing and file
I/O are the out-of-scope wrapper).  Raises `ValueError` when the document has
no `messages` list; otherwise every message is normalized in place and one
`by_normalize` entry is appended to the `meta` list (a missing or non-list
`meta` is replaced by a fresh list first). -/
def normalize_json (data : List (String × JVal)) (shift : Int) :
    Except String (List (String × JVal)) :=
  match jget data "messages" with
  | some (.arr msgs) => do
    let results ← msgs.mapM (normalizeMsg shift)
    let changed : Int := ((results.filter (·.2)).length : Int)
    let data1 := jset data "messages" (.arr (results.map Prod.fst))
    let metaList : List JVal :=
      match jget data1 "meta" with
      | some (.arr xs) => xs
      | _ => []
    let note := "Созданы поля \x27meta_norm\x27 с примененным сдвигом " ++
      (if 0 ≤ shift then "+" ++ toString shift else toString shift)
    let entry := JVal.obj [("by_normalize", JVal.obj
      [("applied_shift_hours", .int shift), ("note", .str note),
       ("messages_with_date_norm", .int changed)])]
    .ok (jset data1 "meta" (.arr (metaList ++ [entry])))
  | _ => .error "ValueError"

/-! ## Typed message model for the two builders

The aggregate and social-graph builders read a fixed set of fields through
`isinstance` guards.  Each field below records exactly the observation the
source makes of the raw JSON: a value that fails the source's `isinstance`
test behaves identically to an absent one and is modelled as `none`. -/

/-- One entry of `text_entities` (a non-dict entry is skipped by every loop,
so it is observationally absent and not modelled).  `user_id` carries
`str(user_id)` for a truthy user id. -/
structure Entity where
  etype : Option String
  text : Option String
  user_id : Option String
  href : Option String

/-- One entry of `reactions` (non-dict entries are skipped).  `count` is the
value after the source's `int` coercion, which turns an unparsable count
into 0.  `emoji` / `rtype` carry the `emoji` / `type` fields when strings. -/
structure Reaction where
  emoji : Option String
  rtype : Option String
  count : Int

/-- The `meta_norm` object as produced by the normalizer: each field is a
string or null there, which is what the builders consume. -/
structure MetaNorm where
  date_norm : Option String
  edited_norm : Option String
  text_plain : Option String
  media_cat : Option String

/-- A raw message record as observed by the builders.
`mid` is the `id` field when it is an `int`; `reply_to` likewise for
`reply_to_message_id`.  `from_id` is `str(from_id)` when `from_id` is truthy.
`from_name` is the `from` field when a string.  `date` / `date_unixtime` are
kept as the builders coerce them.  `hasEdited` / `hasEditedUnixtime` /
`hasReactions` model the `in` membership tests; `editedTruthy` models
`bool(m.get("edited"))`. -/
structure RawMsg where
  mtype : Option String := none
  mid : Option Int := none
  reply_to : Option Int := none
  from_id : Option String := none
  from_name : Option String := none
  date : Option String := none
  date_unixtime : Option Int := none
  hasEdited : Bool := false
  editedTruthy : Bool := false
  hasEditedUnixtime : Bool := false
  hasReactions : Bool := false
  reactions : Option (List Reaction) := none
  media_type : Option String := none
  duration_seconds : Option ℚ := none
  text_entities : Option (List Entity) := none
  text : JVal := .null
  metaNorm : Option MetaNorm := none

/-- The `m.get("meta_norm", {})` default. -/
def metaOf (m : RawMsg) : MetaNorm :=
  m.metaNorm.getD ⟨none, none, none, none⟩

/-- The `type == "message"` inclusion filter both builders apply. -/
def isMessage (m : RawMsg) : Bool :=
  m.mtype = some "message"

/-- Python `a or b` on a string-or-missing left operand (an empty string is
falsy and falls through). -/
def orStr (a : Option String) (b : String) : String :=
  match a with
  | some s => if s = "" then b else s
  | none => b

/-- Python `len` on a string counts code points. -/
def pylen (s : String) : Nat := s.data.length

/-- Python `s[:n]` slices by code points. -/
def pyslice (s : String) (n : Nat) : String := String.mk (s.data.take n)

/-! ## Aggregate builder (`step3_aggregates.py`) -/

/-- Accumulator state of the first pass of `build_aggregates_json`
(lines 31-52), one field per local counter of the source. -/
structure AggState where
  by_day : List (String × Nat) := []
  by_hour : List (Nat × Nat) := []
  by_author : List (String × Nat) := []
  name_by_id : List (String × String) := []
  message_ids : List Int := []
  reply_ids : List Int := []
  edited_ids : List Int := []
  react_ids : List Int := []
  media_ids : List Int := []
  photo_ids : List Int := []
  gif_ids : List Int := []
  other_media_ids : List Int := []
  id_to_parent : List (Int × Option Int) := []
  id_to_msg : List (Int × RawMsg) := []
  emoji_counter : List (String × Int) := []
  top_reacted_msgs : List (Int × Int) := []
  reactions_by_author : List (String × Int) := []
  media_counter : List (String × Nat) := []
  polls_by_author : List (String × Nat) := []

/-- The key `r.get("emoji") or r.get("type") or "?"` of one reaction entry. -/
def reactionKey (r : Reaction) : String :=
  orStr r.emoji (orStr r.rtype "?")

/-- Total reaction count of one message and the emoji tally updates
(lines 112-122): each dict entry contributes its coerced count. -/
def reactionFold (emoji_counter : List (String × Int)) (rs : List Reaction) :
    List (String × Int) × Int :=
  rs.foldl
    (fun (acc : List (String × Int) × Int) r =>
      (bumpBy acc.1 (reactionKey r) r.count, acc.2 + r.count))
    (emoji_counter, 0)

/-- Id bookkeeping of the first pass (lines 60-67): known ids, the
id-to-parent and id-to-message tables, and the reply-id set. -/
def aggStepIds (st : AggState) (m : RawMsg) : AggState :=
  match m.mid with
  | some mid =>
    let pid := m.reply_to
    { st with
      message_ids := sadd st.message_ids mid
      id_to_msg := aset st.id_to_msg mid m
      id_to_parent := aset st.id_to_parent mid pid
      reply_ids := if pid.isSome then sadd st.reply_ids mid else st.reply_ids }
  | none => st

/-- Edited-message tracking (lines 69-71). -/
def aggStepEdited (st : AggState) (m : RawMsg) : AggState :=
  if m.hasEdited || m.hasEditedUnixtime || orStr (metaOf m).edited_norm "" ≠ "" then
    match m.mid with
    | some mid => { st with edited_ids := sadd st.edited_ids mid }
    | none => st
  else st

/-- Reaction-bearing-message tracking (lines 73-75). -/
def aggStepReactIds (st : AggState) (m : RawMsg) : AggState :=
  if m.hasReactions then
    match m.mid with
    | some mid => { st with react_ids := sadd st.react_ids mid }
    | none => st
  else st

/-- Media tracking (lines 77-88): id sets per media bucket and the media
category counter.  Note the counter increments for every media-bearing
message, while the id sets only record messages with an integer id. -/
def aggStepMedia (st : AggState) (m : RawMsg) : AggState :=
  match (metaOf m).media_cat with
  | some cat =>
    let st :=
      match m.mid with
      | some mid =>
        { st with
          media_ids := sadd st.media_ids mid
          photo_ids := if cat = "photo" then sadd st.photo_ids mid else st.photo_ids
          gif_ids :=
            if cat ≠ "photo" ∧ cat = "animation (GIF)" then sadd st.gif_ids mid
            else st.gif_ids
          other_media_ids :=
            if cat ≠ "photo" ∧ cat ≠ "animation (GIF)" then
              sadd st.other_media_ids mid
            else st.other_media_ids }
      | none => st
    { st with media_counter := bump st.media_counter cat }
  | none => st

/-- Poll-creator tracking (lines 89-92). -/
def aggStepPoll (st : AggState) (m : RawMsg) : AggState :=
  if (metaOf m).media_cat = some "poll" then
    match m.from_id with
    | some fid => { st with polls_by_author := bump st.polls_by_author fid }
    | none => st
  else st

/-- Author counting and display-name capture (lines 94-100). -/
def aggStepAuthor (st : AggState) (m : RawMsg) : AggState :=
  match m.from_id with
  | some fid =>
    let st := { st with by_author := bump st.by_author fid }
    match m.from_name with
    | some disp =>
      if disp.trim ≠ "" then { st with name_by_id := aset st.name_by_id fid disp }
      else st
    | none => st
  | none => st

/-- Day and hour histogram updates (lines 102-110): the day key is the
10-character prefix of `date_norm`, the hour key comes from re-parsing
`date_norm` with `fromisoformat` (a parse failure only skips the hour). -/
def aggStepDate (st : AggState) (m : RawMsg) : AggState :=
  match (metaOf m).date_norm with
  | some dn =>
    if 10 ≤ pylen dn then
      let st := { st with by_day := bump st.by_day (pyslice dn 10) }
      match fromIso dn.data with
      | some (dt, _) => { st with by_hour := bump st.by_hour dt.hour }
      | none => st
    else st
  | none => st

/-- Reaction tallies (lines 112-127): the emoji counter, the per-author
received-reactions counter, and the (total, id) list feeding the
most-reacted ranking. -/
def aggStepReactions (st : AggState) (m : RawMsg) : AggState :=
  let folded : List (String × Int) × Int :=
    match m.reactions with
    | some rs => reactionFold st.emoji_counter rs
    | none => (st.emoji_counter, (0 : Int))
  let st := { st with emoji_counter := folded.1 }
  let st :=
    match m.from_id with
    | some fid =>
      if folded.2 ≠ 0 then
        { st with reactions_by_author := bumpBy st.reactions_by_author fid folded.2 }
      else st
    | none => st
  match m.mid with
  | some mid => { st with top_reacted_msgs := st.top_reacted_msgs ++ [(folded.2, mid)] }
  | none => st

/-- Body of the first aggregation pass (lines 54-127) for one message: the
blocks of the loop body in source order.  The `type != "message"` guard is
applied by the fold below, as in the source. -/
def aggStep (st : AggState) (m : RawMsg) : AggState :=
  aggStepReactions
    (aggStepDate
      (aggStepAuthor
        (aggStepPoll
          (aggStepMedia
            (aggStepReactIds
              (aggStepEdited (aggStepIds st m) m) m) m) m) m) m) m

/-- First aggregation pass over the message list, with the
`type != "message": continue` guard of line 56. -/
def aggPass1 (msgs : List RawMsg) : AggState :=
  msgs.foldl (fun st m => if isMessage m then aggStep st m else st) {}

/-- The `while True` walk of `find_root` (lines 129-138).  The walk appends
the current node to `seen`, follows the parent pointer, and stops on a null
or dangling parent, a memoized node, or once `seen` exceeds 1000 entries.
The walk body runs at most 1001 times, so the structural `fuel` never runs
out when started at 1001 (`frLoop_fuel_irrel` below); the fuel-0 fallback
returns the same pair the hop guard would. -/
def frLoop (par : List (Int × Option Int)) (cache : List (Int × Int)) :
    Nat → Int → List Int → Int × List Int
  | fuel, x, seen =>
    match alookup par x with
    | none => (x, seen)
    | some none => (x, seen)
    | some (some p) =>
      if (alookup par p).isNone then (x, seen)
      else
        match alookup cache x with
        | some r => (r, seen)
        | none =>
          let seen' := seen ++ [x]
          if 1000 < seen'.length then (p, seen')
          else
            match fuel with
            | 0 => (p, seen')
            | fuel' + 1 => frLoop par cache fuel' p seen'

/-- Embedding of `find_root`: run the walk, then memoize the resolved root
for every node on the walked path (line 137).  Returns the root and the
updated cache. -/
def find_root (par : List (Int × Option Int)) (cache : List (Int × Int))
    (x : Int) : Int × List (Int × Int) :=
  let res := frLoop par cache 1001 x []
  (res.1, res.2.foldl (fun c y => aset c y res.1) cache)

/-- Thread-statistics state of the second pass (lines 140-149): the shared
memoization cache, thread sizes, and per-thread participant sets. -/
structure ThreadState where
  root_cache : List (Int × Int) := []
  thread_size : List (Int × Nat) := []
  thread_participants : List (Int × List String) := []

/-- Body of the thread pass for one message. -/
def threadStep (par : List (Int × Option Int)) (st : ThreadState) (m : RawMsg) :
    ThreadState :=
  match m.mid with
  | none => st
  | some mid =>
    let res := find_root par st.root_cache mid
    let st := { st with root_cache := res.2,
                        thread_size := bump st.thread_size res.1 }
    match m.from_id with
    | some fid =>
      let updated := sadd ((alookup st.thread_participants res.1).getD []) fid
      { st with thread_participants := aset st.thread_participants res.1 updated }
    | none => st

/-- Second aggregation pass: thread sizes and participants. -/
def threadPass (msgs : List RawMsg) (par : List (Int × Option Int)) : ThreadState :=
  msgs.foldl (fun st m => if isMessage m then threadStep par st m else st) {}

/-- Round-half-to-even of a rational to an integer, the exact-arithmetic
meaning of CPython's `round`. -/
def roundHalfEven (q : ℚ) : Int :=
  let f := ⌊q⌋
  let r := q - f
  if r < 1/2 then f
  else if 1/2 < r then f + 1
  else if f % 2 = 0 then f else f + 1

/-- Integer form of the `pct` helper (lines 188-189): the number of
hundredths of a percent, i.e. `round(part / total * 100, 2) * 100`, computed
in exact integer arithmetic (0 for a zero total).  `pct100_eq_roundHalfEven`
below shows this is round-half-to-even of `part / total * 10000`, the exact
meaning of CPython `round` at these arguments. -/
def pct100 (n tot : Nat) : Int :=
  if tot = 0 then 0
  else
    let a := n * 10000
    let q := a / tot
    if 2 * (a % tot) < tot then (q : Int)
    else if tot < 2 * (a % tot) then (q : Int) + 1
    else if q % 2 = 0 then (q : Int) else (q : Int) + 1

/-- Embedding of the `pct` helper as a rational: `part / total * 100` rounded
to two decimals, 0 for a zero total.  The builder stores `pct100` (the value
times 100) so that outputs stay in integer arithmetic; this recovers the
percentage itself. -/
def pct (n tot : Nat) : ℚ := (pct100 n tot : ℚ) / 100

/-- The `all_aggregates.json` document built by `build_aggregates_json`
(lines 211-257), except the run-dependent fields `chat_id`,
`source_file_path`, `source_file_name` and `generation_timestamp`, which are
copied from the invocation context rather than computed from messages.
Ranked-list entries are tuples in the field order of the source dicts. -/
structure AggOut where
  total_messages : Nat
  replies_count : Nat
  replies_pct100 : Int
  edited_msgs : Nat
  reactions_msgs_count : Nat
  reactions_msgs_pct100 : Int
  media_count : Nat
  media_pct100 : Int
  photo_count : Nat
  photo_pct100 : Int
  gif_count : Nat
  gif_pct100 : Int
  other_media_count : Nat
  other_media_pct100 : Int
  by_day : List (String × Nat)
  by_hour : List (Nat × Nat)
  top_authors : List (String × String × Nat)
  threads_top5 : List (Int × Nat × String × String × String × Nat)
  emoji_top5 : List (String × Int)
  top_reacted_messages_top3 : List (Int × Int × String × String × String)
  reactions_by_author_top5 : List (String × String × Int)
  media_shares : List (String × Nat × Int)
  poll_creators_top3 : List (String × String × Nat)
deriving DecidableEq, Repr

/-- The `username` fallback chain used by thread and reaction entries:
`m.get("from") or (str(m.get("from_id")) if m.get("from_id") else "")`. -/
def usernameOf (m : RawMsg) : String :=
  orStr m.from_name (m.from_id.getD "")

/-- The `date_norm` fallback chain of report entries:
`meta.get("date_norm") or m.get("date") or ""`. -/
def dateNormOf (m : RawMsg) : String :=
  orStr (metaOf m).date_norm (orStr m.date "")

/-- The 140-character text preview `(meta.get("text_plain") or "")[:140]`. -/
def textPreviewOf (m : RawMsg) : String :=
  pyslice (orStr (metaOf m).text_plain "") 140

/-- Embedding of `build_aggregates_json` as a function from the loaded
message list to the aggregate document (file I/O and the run-dependent
header fields are the out-of-scope wrapper). -/
def build_aggregates_json (msgs : List RawMsg) : AggOut :=
  let st := aggPass1 msgs
  let th := threadPass msgs st.id_to_parent
  let lookupMsg : Int → RawMsg := fun i => (alookup st.id_to_msg i).getD {}
  let nameOf : String → String := fun fid => (alookup st.name_by_id fid).getD fid
  let total := st.message_ids.length
  let media_msgs_count := st.media_ids.length
  { total_messages := total
    replies_count := st.reply_ids.length
    replies_pct100 := pct100 st.reply_ids.length total
    edited_msgs := st.edited_ids.length
    reactions_msgs_count := st.react_ids.length
    reactions_msgs_pct100 := pct100 st.react_ids.length total
    media_count := media_msgs_count
    media_pct100 := pct100 media_msgs_count total
    photo_count := st.photo_ids.length
    photo_pct100 := pct100 st.photo_ids.length media_msgs_count
    gif_count := st.gif_ids.length
    gif_pct100 := pct100 st.gif_ids.length media_msgs_count
    other_media_count := st.other_media_ids.length
    other_media_pct100 := pct100 st.other_media_ids.length media_msgs_count
    by_day := ssort (fun a b => a.1 ≤ b.1) st.by_day
    by_hour := ssort (fun a b => a.1 ≤ b.1) st.by_hour
    top_authors :=
      ((ssort (fun a b => b.2 ≤ a.2) st.by_author).take 10).map
        (fun p => (p.1, nameOf p.1, p.2))
    threads_top5 :=
      ((ssort (fun a b => b.2 ≤ a.2) th.thread_size).take 5).map
        (fun p =>
          let rm := lookupMsg p.1
          (p.1, p.2, usernameOf rm, dateNormOf rm, textPreviewOf rm,
           ((alookup th.thread_participants p.1).getD []).length))
    emoji_top5 := (ssort (fun a b => b.2 ≤ a.2) st.emoji_counter).take 5
    top_reacted_messages_top3 :=
      ((ssort (fun a b => b.1 ≤ a.1) st.top_reacted_msgs).take 3).map
        (fun p =>
          let rm := lookupMsg p.2
          (p.2, p.1, usernameOf rm, dateNormOf rm, textPreviewOf rm))
    reactions_by_author_top5 :=
      ((ssort (fun a b => b.2 ≤ a.2) st.reactions_by_author).take 5).map
        (fun p => (p.1, nameOf p.1, p.2))
    media_shares :=
      st.media_counter.map (fun p => (p.1, p.2, pct100 p.2 media_msgs_count))
    poll_creators_top3 :=
      ((ssort (fun a b => b.2 ≤ a.2) st.polls_by_author).take 3).map
        (fun p => (p.1, nameOf p.1, p.2)) }

/-! ## Social graph builder (`step3_5_social_graph.py`) -/

/-- Embedding of `STOPWORDS_RU`. -/
def STOPWORDS_RU : List String :=
  ["и", "в", "во", "не", "что", "он", "на", "я", "с", "со", "как", "а", "то",
   "все", "она", "так", "его", "но", "да", "ты", "к", "у", "же", "вы", "за",
   "бы", "по", "только", "ее", "мне", "было", "вот", "от", "меня", "еще",
   "нет", "о", "из", "ему", "теперь", "когда", "даже", "ну", "вдруг", "ли",
   "если", "уже", "или", "ни", "быть", "был", "него", "до", "вас", "нибудь",
   "опять", "уж", "вам", "ведь", "там", "потом", "себя", "ничего", "ей",
   "может", "они", "тут", "где", "есть", "надо", "ней", "для", "мы", "тебя",
   "их", "чем", "была", "сам", "чтоб", "без", "будто", "чего", "раз", "тоже",
   "себе", "под", "будет", "ж", "тогда", "кто", "этот", "того", "потому",
   "этого", "какой", "совсем", "ним", "здесь", "этом", "один", "почти",
   "мой", "тем", "чтобы", "нее", "сейчас", "были", "куда", "зачем", "всех",
   "никогда", "можно", "при", "наконец", "два", "об", "другой", "хоть",
   "после", "над", "больше", "тот", "через", "эти", "нас", "про", "всего",
   "них", "какая", "много", "разве", "три", "эту", "моя", "впрочем",
   "хорошо", "свою", "этой", "перед", "иногда", "лучше", "чуть", "том",
   "нельзя", "такой", "им", "более", "всегда", "конечно", "всю", "между",
   "это", "который", "которая", "которые"]

/-- Embedding of `STOPWORDS_EN`. -/
def STOPWORDS_EN : List String :=
  ["the", "be", "to", "of", "and", "a", "in", "that", "have", "i", "it",
   "for", "not", "on", "with", "he", "as", "you", "do", "at", "this", "but",
   "his", "by", "from", "they", "we", "say", "her", "she", "or", "an",
   "will", "my", "one", "all", "would", "there", "their", "what", "so",
   "up", "out", "if", "about", "who", "get", "which", "go", "me", "when",
   "make", "can", "like", "time", "no", "just", "him", "know", "take",
   "people", "into", "year", "your", "good", "some", "could", "them", "see",
   "other", "than", "then", "now", "look", "only", "come", "its", "over",
   "think", "also", "back", "after", "use", "two", "how", "our", "work",
   "first", "well", "way", "even", "new", "want", "because", "any", "these",
   "give", "day", "most", "us", "is", "was", "are", "been", "has", "had",
   "were", "said", "did", "having", "may", "should", "am", "being", "does"]

/-- Embedding of `STOPWORDS = STOPWORDS_RU | STOPWORDS_EN` (only membership
is ever used, so list concatenation models the set union). -/
def STOPWORDS : List String := STOPWORDS_RU ++ STOPWORDS_EN

/-- Embedding of `calculate_mattr`: 0.0 below the window size, otherwise the
mean over all contiguous windows of the ratio of distinct tokens to the
window size. -/
def calculate_mattr (words : List String) (window_size : Nat := 1000) : ℚ :=
  if words.length < window_size then 0
  else
    let ttr_values := (List.range (words.length - window_size + 1)).map
      (fun i =>
        (((words.drop i).take window_size).dedup.length : ℚ) / (window_size : ℚ))
    if ttr_values.isEmpty then 0 else ttr_values.sum / (ttr_values.length : ℚ)

/-- Lower-casing for the Latin and Cyrillic ranges this chat analyzer meets
(CPython `str.lower` restricted to those ranges). -/
def pyLower (c : Char) : Char :=
  if 'A' ≤ c ∧ c ≤ 'Z' then Char.ofNat (c.toNat + 32)
  else if 'А' ≤ c ∧ c ≤ 'Я' then Char.ofNat (c.toNat + 32)
  else if c = 'Ё' then 'ё'
  else c

/-- Upper-case letter test (`str.isupper` per character) for the Latin and
Cyrillic ranges. -/
def pyIsUpper (c : Char) : Bool :=
  ('A' ≤ c ∧ c ≤ 'Z') ∨ ('А' ≤ c ∧ c ≤ 'Я') ∨ c = 'Ё'

/-- Letter test (`str.isalpha` per character) for the Latin and Cyrillic
ranges. -/
def pyIsAlpha (c : Char) : Bool :=
  pyIsUpper c ∨ ('a' ≤ c ∧ c ≤ 'z') ∨ ('а' ≤ c ∧ c ≤ 'я') ∨ c = 'ё'

/-- Character class `[а-яёa-z]` of the token regex. -/
def isTokenChar (c : Char) : Bool :=
  ('a' ≤ c ∧ c ≤ 'z') ∨ ('а' ≤ c ∧ c ≤ 'я') ∨ c = 'ё'

/-- Word character for the `\b` boundaries of the token regex (`\w`),
restricted to the ranges above plus digits and underscore. -/
def isWordChar (c : Char) : Bool :=
  isTokenChar c ∨ pyIsUpper c ∨ c.isDigit ∨ c = '_'

/-- Maximal word-character runs of a character list. -/
def wordRuns : List Char → List (List Char)
  | [] => []
  | c :: cs =>
    if isWordChar c then
      match wordRuns cs with
      | run :: runs =>
        match cs with
        | c' :: _ => if isWordChar c' then (c :: run) :: runs else [c] :: run :: runs
        | [] => [c] :: runs
      | [] => [[c]]
    else wordRuns cs

/-- Embedding of `re.findall(r"\b[а-яёa-z]{3,}\b", text.lower())`: on the
lowered text, a match is exactly a maximal word-character run that consists
entirely of the token class and has at least three characters. -/
def findTokens (text : String) : List String :=
  ((wordRuns (text.data.map pyLower)).filter
      (fun run => 3 ≤ run.length ∧ run.all isTokenChar)).map String.mk

/-- Embedding of the `urlparse` network-location extraction of lines 222-226:
default the scheme to `http://` when missing, take the component between
`://` and the first `/`, `?` or `#`, and lower-case it. -/
def urlDomain (url : String) : String :=
  let full := if url.startsWith "http://" || url.startsWith "https://" then url
              else "http://" ++ url
  let rest :=
    if full.startsWith "https://" then full.data.drop 8 else full.data.drop 7
  String.mk ((rest.takeWhile (fun c => c ≠ '/' ∧ c ≠ '?' ∧ c ≠ '#')).map pyLower)

/-- State of the first social-graph pass (lines 122-139): author and
timestamp lookup tables and the display-name map. -/
structure SocPre where
  name_by_id : List (String × String) := []
  msg_id_to_author : List (Int × String) := []
  msg_id_to_timestamp : List (Int × Int) := []

/-- Body of the first social-graph pass for one message. -/
def socPreStep (st : SocPre) (m : RawMsg) : SocPre :=
  match m.mid, m.from_id with
  | some mid, some fid =>
    let st := { st with msg_id_to_author := aset st.msg_id_to_author mid fid }
    let st :=
      match m.date_unixtime with
      | some ts => { st with msg_id_to_timestamp := aset st.msg_id_to_timestamp mid ts }
      | none => st
    match m.from_name with
    | some disp =>
      if disp.trim ≠ "" then { st with name_by_id := aset st.name_by_id fid disp }
      else st
    | none => st
  | _, _ => st

/-- First social-graph pass. -/
def socPrePass (msgs : List RawMsg) : SocPre :=
  msgs.foldl (fun st m => if isMessage m then socPreStep st m else st) {}

/-- Nested-counter increment `outer[k1][k2] += 1` on a
`defaultdict(lambda: defaultdict(int))`. -/
def bumpIn (outer : List (String × List (String × Nat))) (k1 k2 : String) :
    List (String × List (String × Nat)) :=
  aset outer k1 (bump ((alookup outer k1).getD []) k2)

/-- Nested-counter increment keyed by hour. -/
def bumpInNat (outer : List (String × List (Nat × Nat))) (k1 : String) (k2 : Nat) :
    List (String × List (Nat × Nat)) :=
  aset outer k1 (bump ((alookup outer k1).getD []) k2)

/-- List append `outer[k].append(v)` on a `defaultdict(list)`. -/
def appendIn {α : Type} (outer : List (String × List α)) (k : String) (v : α) :
    List (String × List α) :=
  aset outer k (((alookup outer k).getD []) ++ [v])

/-- Accumulator state of the second social-graph pass (lines 92-108; the
display-name map is threaded on because text-mention entities extend it). -/
structure SocState where
  name_by_id : List (String × String) := []
  mention_counter : List (String × Nat) := []
  reply_matrix : List (String × List (String × Nat)) := []
  quotability_counter : List (String × Nat) := []
  voice_duration_by_user : List (String × ℚ) := []
  domain_counter : List (String × Nat) := []
  caps_by_user : List (String × Nat) := []
  formatting_by_user : List (String × List (String × Nat)) := []
  words_by_user : List (String × List String) := []
  message_count_by_user : List (String × Nat) := []
  reply_times_by_user : List (String × List Int) := []
  hour_distribution_by_user : List (String × List (Nat × Nat)) := []
  edit_count_by_user : List (String × Nat) := []

/-- Mention handling for one entity (lines 159-174): `mention` entities count
their literal text, `text_mention` entities count the stringified user id and
may teach the display-name map a first-seen name. -/
def mentionStep (st : SocState) (e : Entity) : SocState :=
  if e.etype = some "mention" then
    match e.text with
    | some t => if t ≠ "" then { st with mention_counter := bump st.mention_counter t } else st
    | none => st
  else if e.etype = some "text_mention" then
    match e.user_id with
    | some uid =>
      let st := { st with mention_counter := bump st.mention_counter uid }
      match e.text with
      | some t =>
        if t ≠ "" ∧ (alookup st.name_by_id uid).isNone then
          { st with name_by_id := aset st.name_by_id uid t }
        else st
      | none => st
    | none => st
  else st

/-- Link and formatting handling for one entity (lines 212-231). -/
def entityStep2 (fid : String) (st : SocState) (e : Entity) : SocState :=
  let st :=
    if e.etype = some "link" ∨ e.etype = some "text_link" then
      let url := orStr e.href (orStr e.text "")
      if url ≠ "" then
        let domain := urlDomain url
        if domain ≠ "" then { st with domain_counter := bump st.domain_counter domain }
        else st
      else st
    else st
  match e.etype with
  | some t =>
    if t = "bold" ∨ t = "italic" ∨ t = "spoiler" ∨ t = "custom_emoji" ∨
        t = "underline" ∨ t = "strikethrough" then
      { st with formatting_by_user := bumpIn st.formatting_by_user fid t }
    else st
  | none => st

/-- Body of the second social-graph pass for one message (lines 141-253,
with `morph = None`: the morphological analyzer is the optional dependency
and its absence is the degraded mode the source also supports). -/
def socStep (pre : SocPre) (st : SocState) (m : RawMsg) : SocState :=
  match m.from_id with
  | none => st
  | some fid =>
    let st :=
      match m.text_entities with
      | some es => es.foldl mentionStep st
      | none => st
    let st :=
      match m.reply_to with
      | some rid =>
        match alookup pre.msg_id_to_author rid with
        | some replied =>
          let st :=
            if fid ≠ replied then
              { st with reply_matrix := bumpIn st.reply_matrix fid replied }
            else st
          let st := { st with quotability_counter := bump st.quotability_counter replied }
          match m.date_unixtime, alookup pre.msg_id_to_timestamp rid with
          | some cur, some orig =>
            if orig ≠ 0 then
              let dt := cur - orig
              if 0 < dt then
                { st with reply_times_by_user := appendIn st.reply_times_by_user fid dt }
              else st
            else st
          | _, _ => st
        | none => st
      | none => st
    let st := { st with message_count_by_user := bump st.message_count_by_user fid }
    let st :=
      match m.date with
      | some ds =>
        match fromIso (ds.data.flatMap fun c =>
            if c = 'Z' then "+00:00".data else [c]) with
        | some (dt, _) =>
          { st with hour_distribution_by_user := bumpInNat st.hour_distribution_by_user fid dt.hour }
        | none => st
      | none => st
    let st :=
      if m.editedTruthy then { st with edit_count_by_user := bump st.edit_count_by_user fid }
      else st
    let st :=
      if m.media_type = some "voice_message" then
        match m.duration_seconds with
        | some d =>
          if 0 < d then
            let total := ((alookup st.voice_duration_by_user fid).getD 0) + d
            { st with voice_duration_by_user := aset st.voice_duration_by_user fid total }
          else st
        | none => st
      else st
    let st :=
      match m.text_entities with
      | some es => es.foldl (entityStep2 fid) st
      | none => st
    let text_plain := orStr (metaOf m).text_plain (flatten_text m.text)
    if text_plain ≠ "" then
      let caps_count := (text_plain.data.filter pyIsUpper).length
      let total_letters := (text_plain.data.filter pyIsAlpha).length
      let st :=
        if 10 < total_letters ∧ 7 * total_letters < 10 * caps_count then
          { st with caps_by_user := bump st.caps_by_user fid }
        else st
      (findTokens text_plain).foldl
        (fun st word =>
          if STOPWORDS.contains word then st
          else { st with words_by_user := appendIn st.words_by_user fid word })
        st
    else st

/-- Second social-graph pass, seeded with the display-name map of the first
pass. -/
def socPass (msgs : List RawMsg) (pre : SocPre) : SocState :=
  msgs.foldl (fun st m => if isMessage m then socStep pre st m else st)
    { name_by_id := pre.name_by_id }

/-- Round-half-to-even of `num / den` for a positive denominator, in exact
integer arithmetic (the meaning of CPython `round` at the call sites below,
which all scale by a power of ten first). -/
def rheDiv (num den : Int) : Int :=
  let q := num / den
  let r := num % den
  if 2 * r < den then q else if den < 2 * r then q + 1
  else if q % 2 = 0 then q else q + 1

/-- One entry of the `reaction_speed` facet, in the field order of the
source dict; rounded values are stored as integer tenths / hundredths. -/
structure SpeedEntry where
  user_id : String
  username : String
  median_seconds_tenths : Int
  median_minutes_tenths : Int
  median_hours_100 : Int
  total_replies : Nat
  total_messages : Nat
deriving DecidableEq, Repr

/-- The `social_graph.json` document built by `build_social_graph`
(lines 437-505), except the run-dependent header fields (`chat_id`, source
paths, `generation_timestamp`) and the constant `description` strings.
Rounded fractional values are stored as integer tenths (`_tenths`) or
hundredths (`_100`) of the printed value, keeping the document in integer
arithmetic; list entries are tuples in the field order of the source dicts. -/
structure SocOut where
  total_mentions : Nat
  unique_mentioned_users : Nat
  total_replies : Nat
  unique_repliers : Nat
  unique_quoted_users : Nat
  top_mentioned : List (String × String × Nat)
  reply_top_pairs : List (String × String × String × String × Nat)
  top_quoted : List (String × String × Nat)
  voice_top_users : List (String × String × Int × Int)
  top_domains : List (String × Nat)
  caps_top_users : List (String × String × Nat × Nat × Int)
  formatting_top_users : List (String × String × Nat × List (String × Nat))
  vocabulary_top_users : List (String × String × Nat × Nat × Int)
  reaction_speed_top : List SpeedEntry
  owls_vs_larks : List (String × String × String × Int × Int × Nat)
  self_censorship_top : List (String × String × Nat × Nat × Int)
deriving DecidableEq, Repr

/-- Embedding of `build_social_graph` as a function from the loaded message
list to the social-graph document. -/
def build_social_graph (msgs : List RawMsg) : SocOut :=
  let pre := socPrePass msgs
  let st := socPass msgs pre
  let nameOf : String → String := fun uid => (alookup st.name_by_id uid).getD uid
  let reply_pairs :=
    st.reply_matrix.flatMap (fun p => p.2.map (fun q => (p.1, q.1, q.2)))
  let vocab_raw :=
    st.words_by_user.filterMap (fun p =>
      let msg_count := (alookup st.message_count_by_user p.1).getD 0
      let total_words := p.2.length
      if 1000 ≤ msg_count ∧ 1000 ≤ total_words then
        some (p.1, total_words, msg_count, calculate_mattr p.2 1000 * 100)
      else none)
  let speed_raw :=
    st.reply_times_by_user.filterMap (fun p =>
      let total_msgs := (alookup st.message_count_by_user p.1).getD 0
      if total_msgs < 1000 ∨ p.2.length = 0 then none
      else
        let sorted := ssort (fun a b => a ≤ b) p.2
        let mid := sorted.length / 2
        let medX2 : Int :=
          if sorted.length % 2 = 0 then (sorted.getD (mid - 1) 0) + (sorted.getD mid 0)
          else 2 * sorted.getD mid 0
        -- round(median, 1) is exact here: twice the median is an integer,
        -- so the median in tenths is (2 * median) * 5
        some (SpeedEntry.mk p.1 (nameOf p.1) (medX2 * 5) (rheDiv (medX2 * 10) 120)
              (rheDiv (medX2 * 100) 7200) p.2.length total_msgs))
  let owls_raw :=
    st.hour_distribution_by_user.filterMap (fun p =>
      let dist : List (Nat × Nat) := p.2
      let total : Nat := (dist.map Prod.snd).sum
      if total < 1000 then none
      else
        let night : Nat := ((List.range 6).map (fun i => (alookup dist (1 + i)).getD 0)).sum
        let day : Nat := ((List.range 9).map (fun i => (alookup dist (9 + i)).getD 0)).sum
        let category :=
          if 3 * total < 10 * night then "Сова"
          else if total < 2 * day then "Жаворонок"
          else "Нейтральный"
        some (p.1, nameOf p.1, category,
              if 0 < total then rheDiv ((night : Int) * 10000) (total : Int) else 0,
              if 0 < total then rheDiv ((day : Int) * 10000) (total : Int) else 0, total))
  let censor_raw :=
    st.edit_count_by_user.filterMap (fun p =>
      let total := (alookup st.message_count_by_user p.1).getD 0
      if total < 1000 then none
      else
        some (p.1, nameOf p.1, p.2, total,
              if 0 < total then rheDiv ((p.2 : Int) * 10000) (total : Int) else 0))
  { total_mentions := (st.mention_counter.map Prod.snd).sum
    unique_mentioned_users := st.mention_counter.length
    total_replies := (reply_pairs.map (fun t => t.2.2)).sum
    unique_repliers := st.reply_matrix.length
    unique_quoted_users := st.quotability_counter.length
    top_mentioned :=
      ((ssort (fun a b => b.2 ≤ a.2) st.mention_counter).take 15).map
        (fun p => (p.1, nameOf p.1, p.2))
    reply_top_pairs :=
      ((ssort (fun a b => b.2.2 ≤ a.2.2) reply_pairs).take 20).map
        (fun t => (t.1, nameOf t.1, t.2.1, nameOf t.2.1, t.2.2))
    top_quoted :=
      ((ssort (fun a b => b.2 ≤ a.2) st.quotability_counter).take 10).map
        (fun p => (p.1, nameOf p.1, p.2))
    voice_top_users :=
      ((ssort (fun a b => b.2 ≤ a.2) st.voice_duration_by_user).take 10).map
        (fun p => (p.1, nameOf p.1, roundHalfEven (p.2 * 10),
                   roundHalfEven (p.2 / 3600 * 100)))
    top_domains := (ssort (fun a b => b.2 ≤ a.2) st.domain_counter).take 15
    caps_top_users :=
      ((ssort (fun a b => b.2 ≤ a.2) st.caps_by_user).take 10).map
        (fun p =>
          let total := (alookup st.message_count_by_user p.1).getD 1
          (p.1, nameOf p.1, p.2, total,
           if 0 < total then rheDiv ((p.2 : Int) * 10000) (total : Int) else 0))
    formatting_top_users :=
      ((ssort (fun a b => b.2.1 ≤ a.2.1)
          (st.formatting_by_user.map
            (fun p => (p.1, (p.2.map Prod.snd).sum, p.2)))).take 10).map
        (fun t => (t.1, nameOf t.1, t.2.1, t.2.2))
    vocabulary_top_users :=
      ((ssort (fun a b => decide (b.2.2.2 ≤ a.2.2.2)) vocab_raw).take 10).map
        (fun t => (t.1, nameOf t.1, t.2.1, t.2.2.1, roundHalfEven (t.2.2.2 * 100)))
    reaction_speed_top :=
      (ssort (fun a b => a.median_seconds_tenths ≤ b.median_seconds_tenths) speed_raw).take 10
    owls_vs_larks := ssort (fun a b => b.2.2.2.1 ≤ a.2.2.2.1) owls_raw
    self_censorship_top :=
      ((ssort (fun a b => b.2.2.2.2 ≤ a.2.2.2.2) censor_raw).take 10) }

/-! ## Root-resolution theory (claims C1 and C2) -/

/-- The root `find_root` assigns to `x` when run with an empty memoization
cache (a fresh, uncached resolution). -/
def freshRoot (par : List (Int × Option Int)) (x : Int) : Int :=
  (frLoop par [] 1001 x []).1

/-- Number of nodes a fresh, uncached resolution of `x` walks (the length of
its `seen` list). -/
def flen (par : List (Int × Option Int)) (x : Int) : Nat :=
  ((frLoop par [] 1001 x []).2).length

/-- A memoization cache is consistent when every cached entry agrees with a
fresh uncached resolution over the same topology. -/
def Consistent (par : List (Int × Option Int)) (cache : List (Int × Int)) : Prop :=
  ∀ y r, alookup cache y = some r → freshRoot par y = r

/-- No fresh resolution over this topology trips the 1000-hop guard (the
walk from any node of the topology stays within 1000 hops). -/
def NoGuardTrip (par : List (Int × Option Int)) : Prop :=
  ∀ x ∈ par.map Prod.fst, flen par x ≤ 1000

/-- One run of root resolution from an empty cache: resolve each id in
order, threading the memoization cache exactly as the thread pass does, and
collect the assigned roots. -/
def runRoots (par : List (Int × Option Int)) (ids : List Int) : List Int :=
  (ids.foldl
    (fun (acc : List Int × List (Int × Int)) i =>
      let r := find_root par acc.2 i
      (acc.1 ++ [r.1], r.2))
    ([], [])).1

/-- A node is terminal for the walk: its parent pointer is absent or null,
or points outside the known ids (the three break conditions of line 133). -/
def termB (par : List (Int × Option Int)) (x : Int) : Bool :=
  match alookup par x with
  | none => true
  | some none => true
  | some (some p) => (alookup par p).isNone

/-- A non-terminal node has a parent that is a known id. -/
theorem termB_false (par : List (Int × Option Int)) (x : Int)
    (h : termB par x = false) :
    ∃ p, alookup par x = some (some p) ∧ (alookup par p).isNone = false := by
  unfold termB at h
  rcases hx : alookup par x with _ | v
  · rw [hx] at h; exact absurd h (by simp)
  · rcases v with _ | p
    · rw [hx] at h; exact absurd h (by simp)
    · rw [hx] at h; exact ⟨p, rfl, h⟩

/-- The walk stops at a terminal node, for any cache, fuel, and seen list. -/
theorem frLoop_term (par : List (Int × Option Int)) (cache : List (Int × Int))
    (fuel : Nat) (x : Int) (seen : List Int) (h : termB par x = true) :
    frLoop par cache fuel x seen = (x, seen) := by
  unfold termB at h
  rcases hx : alookup par x with _ | v
  · cases fuel <;> (rw [frLoop.eq_def]; dsimp only; rw [hx])
  · rcases v with _ | p
    · cases fuel <;> (rw [frLoop.eq_def]; dsimp only; rw [hx])
    · rw [hx] at h
      have h2 : (alookup par p).isNone = true := by simpa using h
      cases fuel <;> (rw [frLoop.eq_def]; dsimp only; rw [hx]; simp [h2])

/-- The walk answers a memoized non-terminal node from the cache. -/
theorem frLoop_cached (par : List (Int × Option Int)) (cache : List (Int × Int))
    (fuel : Nat) (x p r : Int) (seen : List Int)
    (h : alookup par x = some (some p)) (hp : (alookup par p).isNone = false)
    (hc : alookup cache x = some r) :
    frLoop par cache fuel x seen = (r, seen) := by
  cases fuel <;> (rw [frLoop.eq_def]; dsimp only; rw [h, hc]; simp [hp])

/-- The walk returns the parent as root once `seen` would exceed 1000
entries (the hop guard of line 136). -/
theorem frLoop_guard (par : List (Int × Option Int)) (cache : List (Int × Int))
    (fuel : Nat) (x p : Int) (seen : List Int)
    (h : alookup par x = some (some p)) (hp : (alookup par p).isNone = false)
    (hc : alookup cache x = none) (hg : 1000 < seen.length + 1) :
    frLoop par cache fuel x seen = (p, seen ++ [x]) := by
  cases fuel <;> (rw [frLoop.eq_def]; dsimp only; rw [h, hc]; simp [hp, hg])

/-- One non-final iteration of the walk: append the node and follow the
parent pointer. -/
theorem frLoop_step (par : List (Int × Option Int)) (cache : List (Int × Int))
    (fuel : Nat) (x p : Int) (seen : List Int)
    (h : alookup par x = some (some p)) (hp : (alookup par p).isNone = false)
    (hc : alookup cache x = none) (hg : ¬ 1000 < seen.length + 1) :
    frLoop par cache (fuel + 1) x seen = frLoop par cache fuel p (seen ++ [x]) := by
  rw [frLoop.eq_def]; dsimp only; rw [h, hc]; simp [hp, hg]

/-- With exhausted fuel the walk returns the same pair the hop guard would
(`frLoop_fuel_irrel` shows this case is unreachable from `find_root`). -/
theorem frLoop_fuelzero (par : List (Int × Option Int)) (cache : List (Int × Int))
    (x p : Int) (seen : List Int)
    (h : alookup par x = some (some p)) (hp : (alookup par p).isNone = false)
    (hc : alookup cache x = none) (hg : ¬ 1000 < seen.length + 1) :
    frLoop par cache 0 x seen = (p, seen ++ [x]) := by
  rw [frLoop.eq_def]; dsimp only; rw [h, hc]; simp [hp, hg]

/-- Lookup in the empty table. -/
theorem alookup_nil {α β : Type} [DecidableEq α] (k : α) :
    alookup ([] : List (α × β)) k = none := rfl

/-- A successful lookup means the key is present. -/
theorem alookup_mem {α β : Type} [DecidableEq α] :
    ∀ (l : List (α × β)) (k : α) (v : β), alookup l k = some v →
      k ∈ l.map Prod.fst := by
  intro l
  induction l with
  | nil => intro k v h; exact absurd h (by simp [alookup])
  | cons a t ih =>
    intro k v h
    rw [alookup] at h
    by_cases hk : a.1 = k
    · simp [hk]
    · rw [if_neg hk] at h
      simp [ih k v h]

/-- The walk only ever extends its `seen` list. -/
theorem frLoop_seen_le (par : List (Int × Option Int)) (cache : List (Int × Int)) :
    ∀ (fuel : Nat) (x : Int) (seen : List Int),
      seen.length ≤ ((frLoop par cache fuel x seen).2).length := by
  intro fuel
  induction fuel with
  | zero =>
    intro x seen
    rcases ht : termB par x with _ | _
    · obtain ⟨p, hpx, hp⟩ := termB_false par x ht
      rcases hc : alookup cache x with _ | r
      · by_cases hg : 1000 < seen.length + 1
        · rw [frLoop_guard par cache 0 x p seen hpx hp hc hg]; simp
        · rw [frLoop_fuelzero par cache x p seen hpx hp hc hg]; simp
      · rw [frLoop_cached par cache 0 x p r seen hpx hp hc]
    · rw [frLoop_term par cache 0 x seen ht]
  | succ n ih =>
    intro x seen
    rcases ht : termB par x with _ | _
    · obtain ⟨p, hpx, hp⟩ := termB_false par x ht
      rcases hc : alookup cache x with _ | r
      · by_cases hg : 1000 < seen.length + 1
        · rw [frLoop_guard par cache (n + 1) x p seen hpx hp hc hg]; simp
        · rw [frLoop_step par cache n x p seen hpx hp hc hg]
          have := ih p (seen ++ [x])
          simp at this
          omega
      · rw [frLoop_cached par cache (n + 1) x p r seen hpx hp hc]
    · rw [frLoop_term par cache (n + 1) x seen ht]

/-- The walk's `seen` list never exceeds 1001 entries when started below the
guard: the loop body runs at most 1001 times before one of the break
conditions fires. -/
theorem frLoop_length_le (par : List (Int × Option Int)) (cache : List (Int × Int)) :
    ∀ (fuel : Nat) (x : Int) (seen : List Int), seen.length ≤ 1000 →
      ((frLoop par cache fuel x seen).2).length ≤ 1001 := by
  intro fuel
  induction fuel with
  | zero =>
    intro x seen hlen
    rcases ht : termB par x with _ | _
    · obtain ⟨p, hpx, hp⟩ := termB_false par x ht
      rcases hc : alookup cache x with _ | r
      · by_cases hg : 1000 < seen.length + 1
        · rw [frLoop_guard par cache 0 x p seen hpx hp hc hg]; simp; omega
        · rw [frLoop_fuelzero par cache x p seen hpx hp hc hg]; simp; omega
      · rw [frLoop_cached par cache 0 x p r seen hpx hp hc]; dsimp only; omega
    · rw [frLoop_term par cache 0 x seen ht]; dsimp only; omega
  | succ n ih =>
    intro x seen hlen
    rcases ht : termB par x with _ | _
    · obtain ⟨p, hpx, hp⟩ := termB_false par x ht
      rcases hc : alookup cache x with _ | r
      · by_cases hg : 1000 < seen.length + 1
        · rw [frLoop_guard par cache (n + 1) x p seen hpx hp hc hg]; simp; omega
        · rw [frLoop_step par cache n x p seen hpx hp hc hg]
          exact ih p (seen ++ [x]) (by simp; omega)
      · rw [frLoop_cached par cache (n + 1) x p r seen hpx hp hc]; dsimp only; omega
    · rw [frLoop_term par cache (n + 1) x seen ht]; dsimp only; omega

/-- The fuel is irrelevant as long as it covers the hops the guard still
allows; in particular the fuel-0 fallback branch is unreachable from
`find_root`, which starts with fuel 1001 and an empty seen list. -/
theorem frLoop_fuel_irrel (par : List (Int × Option Int)) (cache : List (Int × Int)) :
    ∀ (f1 f2 : Nat) (x : Int) (seen : List Int),
      1001 ≤ seen.length + f1 → 1001 ≤ seen.length + f2 →
      frLoop par cache f1 x seen = frLoop par cache f2 x seen := by
  intro f1
  induction f1 with
  | zero =>
    intro f2 x seen h1 h2
    rcases ht : termB par x with _ | _
    · obtain ⟨p, hpx, hp⟩ := termB_false par x ht
      rcases hc : alookup cache x with _ | r
      · have hg : 1000 < seen.length + 1 := by omega
        rw [frLoop_guard par cache 0 x p seen hpx hp hc hg,
            frLoop_guard par cache f2 x p seen hpx hp hc hg]
      · rw [frLoop_cached par cache 0 x p r seen hpx hp hc,
            frLoop_cached par cache f2 x p r seen hpx hp hc]
    · rw [frLoop_term par cache 0 x seen ht, frLoop_term par cache f2 x seen ht]
  | succ n ih =>
    intro f2 x seen h1 h2
    rcases ht : termB par x with _ | _
    · obtain ⟨p, hpx, hp⟩ := termB_false par x ht
      rcases hc : alookup cache x with _ | r
      · by_cases hg : 1000 < seen.length + 1
        · rw [frLoop_guard par cache (n + 1) x p seen hpx hp hc hg,
              frLoop_guard par cache f2 x p seen hpx hp hc hg]
        · cases f2 with
          | zero => omega
          | succ m =>
            rw [frLoop_step par cache n x p seen hpx hp hc hg,
                frLoop_step par cache m x p seen hpx hp hc hg]
            exact ih m p (seen ++ [x]) (by simp; omega) (by simp; omega)
      · rw [frLoop_cached par cache (n + 1) x p r seen hpx hp hc,
            frLoop_cached par cache f2 x p r seen hpx hp hc]
    · rw [frLoop_term par cache (n + 1) x seen ht, frLoop_term par cache f2 x seen ht]

/-- As long as the run with the longer initial seen list never trips the hop
guard, the initial seen list contributes nothing but its length: two walks
from the same node with the same cache visit the same nodes, return the same
root, and append the same number of entries. -/
theorem frLoop_seen_shift (par : List (Int × Option Int)) (cache : List (Int × Int)) :
    ∀ (f : Nat) (x : Int) (s1 s2 : List Int),
      s2.length ≤ s1.length → 1001 ≤ s1.length + f →
      ((frLoop par cache f x s1).2).length ≤ 1000 →
      (frLoop par cache f x s2).1 = (frLoop par cache f x s1).1 ∧
      ((frLoop par cache f x s2).2).length + s1.length =
        ((frLoop par cache f x s1).2).length + s2.length := by
  intro f
  induction f with
  | zero =>
    intro x s1 s2 hle hfuel hguard
    rcases ht : termB par x with _ | _
    · obtain ⟨p, hpx, hp⟩ := termB_false par x ht
      rcases hc : alookup cache x with _ | r
      · have hg : 1000 < s1.length + 1 := by omega
        rw [frLoop_guard par cache 0 x p s1 hpx hp hc hg] at hguard
        simp at hguard
        omega
      · rw [frLoop_cached par cache 0 x p r s1 hpx hp hc,
            frLoop_cached par cache 0 x p r s2 hpx hp hc]
        exact ⟨rfl, by dsimp only; omega⟩
    · rw [frLoop_term par cache 0 x s1 ht, frLoop_term par cache 0 x s2 ht]
      exact ⟨rfl, by dsimp only; omega⟩
  | succ n ih =>
    intro x s1 s2 hle hfuel hguard
    rcases ht : termB par x with _ | _
    · obtain ⟨p, hpx, hp⟩ := termB_false par x ht
      rcases hc : alookup cache x with _ | r
      · by_cases hg : 1000 < s1.length + 1
        · rw [frLoop_guard par cache (n + 1) x p s1 hpx hp hc hg] at hguard
          simp at hguard
          omega
        · have hg2 : ¬ 1000 < s2.length + 1 := by omega
          rw [frLoop_step par cache n x p s1 hpx hp hc hg] at hguard ⊢
          rw [frLoop_step par cache n x p s2 hpx hp hc hg2]
          have := ih p (s1 ++ [x]) (s2 ++ [x]) (by simp; omega) (by simp; omega) hguard
          simp at this ⊢
          omega
      · rw [frLoop_cached par cache (n + 1) x p r s1 hpx hp hc,
            frLoop_cached par cache (n + 1) x p r s2 hpx hp hc]
        exact ⟨rfl, by dsimp only; omega⟩
    · rw [frLoop_term par cache (n + 1) x s1 ht, frLoop_term par cache (n + 1) x s2 ht]
      exact ⟨rfl, by dsimp only; omega⟩

/-- A terminal node is its own fresh root, with an empty walk. -/
theorem freshRoot_term (par : List (Int × Option Int)) (x : Int)
    (ht : termB par x = true) : freshRoot par x = x := by
  unfold freshRoot
  rw [frLoop_term par [] 1001 x [] ht]

/-- A terminal node's fresh walk has length zero. -/
theorem flen_term (par : List (Int × Option Int)) (x : Int)
    (ht : termB par x = true) : flen par x = 0 := by
  unfold flen
  rw [frLoop_term par [] 1001 x [] ht]
  rfl

/-- A non-terminal node's fresh walk visits at least itself. -/
theorem flen_pos (par : List (Int × Option Int)) (x p : Int)
    (hpx : alookup par x = some (some p)) (hp : (alookup par p).isNone = false) :
    1 ≤ flen par x := by
  unfold flen
  rw [frLoop_step par [] 1000 x p [] hpx hp (alookup_nil x) (by simp)]
  have := frLoop_seen_le par [] 1000 p ([] ++ [x])
  simp at this ⊢
  omega

/-- Fresh roots are invariant along a parent step, and the fresh walk
shortens by exactly one, provided the walk from `x` stays within the
guard. -/
theorem fresh_step (par : List (Int × Option Int)) (x p : Int)
    (hpx : alookup par x = some (some p)) (hp : (alookup par p).isNone = false)
    (hlen : flen par x ≤ 1000) :
    freshRoot par x = freshRoot par p ∧ flen par p + 1 = flen par x := by
  have h1 : frLoop par [] 1001 x [] = frLoop par [] 1000 p [x] := by
    have := frLoop_step par [] 1000 x p [] hpx hp (alookup_nil x) (by simp)
    simpa using this
  have h2 : frLoop par [] 1000 p [x] = frLoop par [] 1001 p [x] :=
    frLoop_fuel_irrel par [] 1000 1001 p [x] (by simp) (by simp)
  have hguard : ((frLoop par [] 1001 p [x]).2).length ≤ 1000 := by
    rw [← h2, ← h1]; exact hlen
  have h3 := frLoop_seen_shift par [] 1001 p [x] [] (by simp) (by simp) hguard
  constructor
  · unfold freshRoot
    rw [h1, h2, ← h3.1]
  · unfold flen
    rw [h1, h2]
    have := h3.2
    simp at this
    omega

/-- Central agreement lemma: from a consistent cache, the walk returns the
fresh root of its start node, and every node it visits shares that fresh
root — provided the fresh walk fits in the remaining guard budget. -/
theorem frLoop_main (par : List (Int × Option Int)) (cache : List (Int × Int))
    (hcons : Consistent par cache) :
    ∀ (f : Nat) (x : Int) (s : List Int),
      1001 ≤ s.length + f → s.length + flen par x ≤ 1000 →
      (frLoop par cache f x s).1 = freshRoot par x ∧
      ∀ y ∈ (frLoop par cache f x s).2, y ∈ s ∨ freshRoot par y = freshRoot par x := by
  intro f
  induction f with
  | zero => intro x s h1 h2; omega
  | succ n ih =>
    intro x s h1 h2
    rcases ht : termB par x with _ | _
    · obtain ⟨p, hpx, hp⟩ := termB_false par x ht
      rcases hc : alookup cache x with _ | r
      · have hpos := flen_pos par x p hpx hp
        have hg : ¬ 1000 < s.length + 1 := by omega
        rw [frLoop_step par cache n x p s hpx hp hc hg]
        obtain ⟨hstep, hflen⟩ := fresh_step par x p hpx hp (by omega)
        have hih := ih p (s ++ [x]) (by simp; omega) (by simp; omega)
        refine ⟨by rw [hih.1, hstep], ?_⟩
        intro y hy
        rcases hih.2 y hy with hmem | hroot
        · simp at hmem
          rcases hmem with hmem | hmem
          · exact Or.inl hmem
          · subst hmem; exact Or.inr rfl
        · exact Or.inr (by rw [hroot, hstep])
      · rw [frLoop_cached par cache (n + 1) x p r s hpx hp hc]
        exact ⟨(hcons x r hc).symm, fun y hy => Or.inl hy⟩
    · rw [frLoop_term par cache (n + 1) x s ht]
      exact ⟨(freshRoot_term par x ht).symm, fun y hy => Or.inl hy⟩

/-- Lookup after a single cache write. -/
theorem alookup_aset {α β : Type} [DecidableEq α] :
    ∀ (l : List (α × β)) (k : α) (v : β) (z : α),
      alookup (aset l k v) z = if k = z then some v else alookup l z := by
  intro l
  induction l with
  | nil =>
    intro k v z
    by_cases hz : k = z <;> simp [aset, alookup, hz]
  | cons a t ih =>
    intro k v z
    by_cases hk : a.1 = k
    · by_cases hz : k = z <;> simp [aset, alookup, hk, hz]
    · rw [aset, if_neg hk, alookup]
      by_cases hz : a.1 = z
      · have : ¬ k = z := by rw [← hz]; intro hkz; exact hk hkz.symm
        simp [alookup, hz, this]
      · simp [alookup, hz, ih]

/-- Lookup after the memoization writes of line 137: every node on the
walked path now maps to the returned root. -/
theorem alookup_foldl_aset :
    ∀ (l : List Int) (cache : List (Int × Int)) (r z : Int),
      alookup (l.foldl (fun c y => aset c y r) cache) z =
        if z ∈ l then some r else alookup cache z := by
  intro l
  induction l with
  | nil => intro cache r z; simp
  | cons a t ih =>
    intro cache r z
    rw [List.foldl_cons, ih]
    by_cases hz : z ∈ t
    · simp [hz]
    · rw [if_neg hz, alookup_aset]
      by_cases ha : z = a
      · simp [ha]
      · have : ¬ a = z := fun h => ha h.symm
        simp [ha, this, hz]

/-- Resolution from a consistent cache agrees with fresh uncached resolution
and leaves the cache consistent, provided no fresh walk from this node trips
the hop guard. -/
theorem find_root_fresh (par : List (Int × Option Int)) (cache : List (Int × Int))
    (x : Int) (hcons : Consistent par cache) (hlen : flen par x ≤ 1000) :
    (find_root par cache x).1 = freshRoot par x ∧
    Consistent par (find_root par cache x).2 := by
  have hmain := frLoop_main par cache hcons 1001 x [] (by simp) (by simpa using hlen)
  unfold find_root
  refine ⟨hmain.1, ?_⟩
  intro y r hy
  dsimp only at hy
  rw [alookup_foldl_aset] at hy
  by_cases hmem : y ∈ (frLoop par cache 1001 x []).2
  · rw [if_pos hmem] at hy
    rcases hmain.2 y hmem with hfalse | hroot
    · exact absurd hfalse (by simp)
    · rw [hroot, ← hmain.1]
      exact Option.some.inj hy
  · rw [if_neg hmem] at hy
    exact hcons y r hy

/-- Under `NoGuardTrip`, every node's fresh walk fits in the guard. -/
theorem flen_le_of_noGuardTrip (par : List (Int × Option Int))
    (h : NoGuardTrip par) (x : Int) : flen par x ≤ 1000 := by
  rcases ht : termB par x with _ | _
  · obtain ⟨p, hpx, _⟩ := termB_false par x ht
    exact h x (alookup_mem par x (some p) hpx)
  · rw [flen_term par x ht]
    omega

/-- The empty cache is consistent. -/
theorem consistent_nil (par : List (Int × Option Int)) : Consistent par [] := by
  intro y r hy
  exact absurd hy (by simp [alookup_nil])

/-- Threaded root resolution from a consistent cache resolves every id to
its fresh root. -/
theorem runRoots_aux (par : List (Int × Option Int)) (h : NoGuardTrip par) :
    ∀ (ids : List Int) (acc : List Int) (cache : List (Int × Int)),
      Consistent par cache →
      (ids.foldl
        (fun (a : List Int × List (Int × Int)) i =>
          let r := find_root par a.2 i
          (a.1 ++ [r.1], r.2))
        (acc, cache)).1 = acc ++ ids.map (freshRoot par) := by
  intro ids
  induction ids with
  | nil => intro acc cache _; simp
  | cons i t ih =>
    intro acc cache hcons
    have hfr := find_root_fresh par cache i hcons (flen_le_of_noGuardTrip par h i)
    rw [List.foldl_cons]
    have := ih (acc ++ [(find_root par cache i).1]) (find_root par cache i).2 hfr.2
    dsimp only at this ⊢
    rw [this, hfr.1]
    simp

/-- Claim C1 (amended): root resolution is deterministic — a threaded run
with memoization assigns to every id exactly the root a fresh uncached
resolution assigns, so any two runs over the same topology agree and every
cache-answered lookup agrees with an uncached one — provided no fresh
resolution over the topology trips the 1000-hop guard.  (The guard-free
proviso is necessary: `find_root_cache_vs_fresh_cex` below exhibits a cyclic
topology where a cached lookup and a fresh resolution disagree.) -/
theorem find_root_runs_idempotent (par : List (Int × Option Int)) (ids : List Int)
    (h : NoGuardTrip par) : runRoots par ids = ids.map (freshRoot par) := by
  unfold runRoots
  rw [runRoots_aux par h ids [] [] (consistent_nil par)]
  simp

/-- Witness for `find_root_runs_idempotent` at the chain 3 → 2 → 1. -/
theorem find_root_runs_idempotent_witness :
    NoGuardTrip [(1, none), (2, some 1), (3, some 2)] ∧
    runRoots [(1, none), (2, some 1), (3, some 2)] [3, 2, 1, 3] = [1, 1, 1, 1] := by
  have hngt : NoGuardTrip [(1, none), (2, some 1), (3, some 2)] := by
    unfold NoGuardTrip flen
    decide
  refine ⟨hngt, ?_⟩
  rw [find_root_runs_idempotent [(1, none), (2, some 1), (3, some 2)] [3, 2, 1, 3] hngt]
  decide

set_option maxRecDepth 200000 in
/-- Counterexample to claim C1 as stated: over the cyclic topology where
message 1 replies to 2 and 2 replies to 1, resolving id 1 first memoizes
root 2 for node 2; the subsequent lookup for id 2 is answered from the cache
as 2, while a fresh uncached resolution of id 2 yields 1. -/
theorem find_root_cache_vs_fresh_cex :
    alookup (find_root [(1, some 2), (2, some 1)] [] 1).2 2 = some 2 ∧
    (find_root [(1, some 2), (2, some 1)]
        (find_root [(1, some 2), (2, some 1)] [] 1).2 2).1 = 2 ∧
    (find_root [(1, some 2), (2, some 1)] [] 2).1 = 1 := by
  refine ⟨by decide, by decide, by decide⟩

set_option maxRecDepth 200000 in
/-- Claim C2: root resolution always terminates — the walk's `seen` list is
bounded by 1001 entries for every topology, cache and start node (the loop
body runs at most 1001 times), and on the cyclic topology where message 5
replies to 6 and 6 replies to 5 the resolution of 5 deterministically
returns 6, the node in hand when the hop guard trips. -/
theorem find_root_terminates :
    (∀ (par : List (Int × Option Int)) (cache : List (Int × Int)) (x : Int),
        ((frLoop par cache 1001 x []).2).length ≤ 1001) ∧
    (find_root [(5, some 6), (6, some 5)] [] 5).1 = 6 ∧
    (find_root [(5, some 6), (6, some 5)] [] 6).1 = 5 := by
  refine ⟨?_, by decide, by decide⟩
  intro par cache x
  exact frLoop_length_le par cache 1001 x [] (by simp)

/-! ## MATTR (claim C5) -/

/-- The specification's description of MATTR at window size 1000, stated
independently of the implementation: 0.0 below the window size, otherwise
the average over every contiguous window of 1000 tokens of the ratio of
distinct tokens in that window to 1000. -/
def mattrSpec (words : List String) : ℚ :=
  if words.length < 1000 then 0
  else
    (∑ i ∈ Finset.range (words.length - 1000 + 1),
        (((words.drop i).take 1000).dedup.length : ℚ) / ((1000 : Nat) : ℚ)) /
      ((words.length - 1000 + 1 : Nat) : ℚ)

/-- A run of equal tokens deduplicates to a single token. -/
theorem dedup_replicate_pos {α : Type} [DecidableEq α] (a : α) :
    ∀ n : Nat, 1 ≤ n → (List.replicate n a).dedup = [a] := by
  intro n
  induction n with
  | zero => omega
  | succ m ih =>
    intro _
    by_cases hm : 1 ≤ m
    · rw [List.replicate_succ,
        List.dedup_cons_of_mem (List.mem_replicate.mpr ⟨by omega, rfl⟩)]
      exact ih hm
    · have : m = 0 := by omega
      subst this
      rfl

/-- Claim C5: `calculate_mattr` with window size 1000 computes exactly the
specified moving-average type-token ratio — 0.0 for fewer than 1000 tokens,
and in general the average over every contiguous 1000-token window of the
ratio of distinct tokens to 1000; for a token list of exactly 1000 tokens
this is the single-window ratio. -/
theorem calculate_mattr_spec :
    (∀ words : List String, calculate_mattr words 1000 = mattrSpec words) ∧
    (∀ words : List String, words.length = 1000 →
      calculate_mattr words 1000 = (words.dedup.length : ℚ) / 1000) := by
  have hmain : ∀ words : List String, calculate_mattr words 1000 = mattrSpec words := by
    intro words
    simp only [calculate_mattr, mattrSpec]
    by_cases hlen : words.length < 1000
    · rw [if_pos hlen, if_pos hlen]
    · rw [if_neg hlen, if_neg hlen]
      split
      · next hemp =>
        exfalso
        simp only [List.isEmpty_eq_true, List.map_eq_nil_iff, List.range_eq_nil] at hemp
        omega
      · rw [List.length_map, List.length_range]
        rfl
  constructor
  · exact hmain
  · intro words h
    rw [hmain words]
    simp only [mattrSpec]
    rw [if_neg (by omega), h]
    norm_num [Finset.sum_range_one, List.take_of_length_le (le_of_eq h)]

/-- Witness for `calculate_mattr_spec` on a list of exactly 1000 equal
tokens: its MATTR is 1/1000. -/
theorem calculate_mattr_spec_witness :
    (List.replicate 1000 "a").length = 1000 ∧
    calculate_mattr (List.replicate 1000 "a") 1000 = 1 / 1000 := by
  refine ⟨by rw [List.length_replicate], ?_⟩
  rw [calculate_mattr_spec.2 (List.replicate 1000 "a") (by rw [List.length_replicate])]
  rw [dedup_replicate_pos "a" 1000 (by omega)]
  norm_num

/-! ## Histogram shape (claim C3) -/

/-- Decimal digits render as digit characters. -/
theorem digitChar_isDigit10 (x : Nat) : (Nat.digitChar (x % 10)).isDigit = true := by
  have h : x % 10 < 10 := Nat.mod_lt _ (by norm_num)
  revert h
  generalize x % 10 = m
  intro h
  interval_cases m <;> decide

/-- A string has the ISO-8601 calendar-date shape `YYYY-MM-DD`: ten
characters, digits everywhere except dashes at positions 4 and 7. -/
def IsIsoDate (s : String) : Bool :=
  match s.data with
  | [a, b, c, d, '-', e, f, '-', g, h] =>
    a.isDigit && b.isDigit && c.isDigit && d.isDigit &&
    e.isDigit && f.isDigit && g.isDigit && h.isDigit
  | _ => false

/-- The 10-character prefix of any normalizer-formatted timestamp is an
ISO-8601 calendar date. -/
theorem isoformat_day_shape (d : DT) (tz : Int) :
    IsIsoDate (pyslice (isoformatSec d tz) 10) = true := by
  simp [pyslice, isoformatSec, pad4c, pad2c, IsIsoDate, digitChar_isDigit10]

/-- A normalizer-formatted timestamp has at least 10 characters. -/
theorem isoformat_long (d : DT) (tz : Int) : 10 ≤ pylen (isoformatSec d tz) := by
  simp [pylen, isoformatSec, pad4c, pad2c]

/-- A constructed datetime is valid (CPython validates on construction). -/
theorem mkDT_valid (y mo d h mi s : Nat) (dt : DT) (hmk : mkDT y mo d h mi s = some dt) :
    validDT dt = true := by
  simp only [mkDT] at hmk
  split at hmk
  · next hv => exact (Option.some.inj hmk) ▸ hv
  · exact absurd hmk (by simp)

/-- Every datetime `fromisoformat` accepts is valid. -/
theorem fromIso_valid (cs : List Char) (dt : DT) (o : Option Int)
    (hp : fromIso cs = some (dt, o)) : validDT dt = true := by
  unfold fromIso at hp
  repeat' split at hp
  all_goals simp at hp
  all_goals (obtain ⟨h1, h2⟩ := hp
             exact h1 ▸ mkDT_valid _ _ _ _ _ _ _ (by assumption))

/-- Every hour `fromisoformat` can produce is below 24. -/
theorem fromIso_hour_lt (cs : List Char) (dt : DT) (o : Option Int)
    (hp : fromIso cs = some (dt, o)) : dt.hour < 24 := by
  have := fromIso_valid cs dt o hp
  unfold validDT at this
  simp at this
  omega

/-- A counter bump only introduces the bumped key. -/
theorem bump_fst {α : Type} [DecidableEq α] :
    ∀ (l : List (α × Nat)) (k : α) (p : α × Nat), p ∈ bump l k → p.1 = k ∨ p ∈ l := by
  intro l
  induction l with
  | nil => intro k p hp; simp [bump] at hp; exact Or.inl (by rw [hp])
  | cons a t ih =>
    intro k p hp
    rw [bump] at hp
    by_cases hk : a.1 = k
    · rw [if_pos hk] at hp
      rcases List.mem_cons.mp hp with h | h
      · exact Or.inl (by rw [h, hk])
      · exact Or.inr (List.mem_cons_of_mem a h)
    · rw [if_neg hk] at hp
      rcases List.mem_cons.mp hp with h | h
      · exact Or.inr (by rw [h]; exact List.mem_cons_self a t)
      · rcases ih k p h with h2 | h2
        · exact Or.inl h2
        · exact Or.inr (List.mem_cons_of_mem a h2)

/-- A counter bump keeps all counts positive. -/
theorem bump_pos {α : Type} [DecidableEq α] :
    ∀ (l : List (α × Nat)) (k : α) (p : α × Nat),
      (∀ q ∈ l, 0 < q.2) → p ∈ bump l k → 0 < p.2 := by
  intro l
  induction l with
  | nil => intro k p _ hp; simp [bump] at hp; rw [hp]; norm_num
  | cons a t ih =>
    intro k p hq hp
    rw [bump] at hp
    by_cases hk : a.1 = k
    · rw [if_pos hk] at hp
      rcases List.mem_cons.mp hp with h | h
      · rw [h]; dsimp only; omega
      · exact hq p (List.mem_cons_of_mem a h)
    · rw [if_neg hk] at hp
      rcases List.mem_cons.mp hp with h | h
      · exact h ▸ hq a (List.mem_cons_self a t)
      · exact ih k p (fun q hqt => hq q (List.mem_cons_of_mem a hqt)) h

/-- Stable sorting never invents or loses entries (membership view). -/
theorem ssort_mem {α : Type} (le : α → α → Bool) :
    ∀ (l : List α) (p : α), p ∈ ssort le l ↔ p ∈ l := by
  have hins : ∀ (x : α) (l : List α) (p : α),
      p ∈ ssort.insertSorted le x l ↔ p = x ∨ p ∈ l := by
    intro x l
    induction l with
    | nil => intro p; simp [ssort.insertSorted]
    | cons a t ih =>
      intro p
      rw [ssort.insertSorted]
      by_cases hle : le a x
      · rw [if_pos hle]
        simp only [List.mem_cons, ih]
        tauto
      · rw [if_neg hle]
        simp only [List.mem_cons]
  intro l
  induction l with
  | nil => intro p; simp [ssort]
  | cons a t ih =>
    intro p
    rw [ssort, hins]
    simp only [List.mem_cons, ih]

/-- The id block leaves the histograms unchanged. -/
theorem aggStepIds_hists (st : AggState) (m : RawMsg) :
    (aggStepIds st m).by_hour = st.by_hour ∧ (aggStepIds st m).by_day = st.by_day := by
  unfold aggStepIds
  repeat' split
  all_goals exact ⟨rfl, rfl⟩

/-- The edited block leaves the histograms unchanged. -/
theorem aggStepEdited_hists (st : AggState) (m : RawMsg) :
    (aggStepEdited st m).by_hour = st.by_hour ∧ (aggStepEdited st m).by_day = st.by_day := by
  unfold aggStepEdited
  repeat' split
  all_goals exact ⟨rfl, rfl⟩

/-- The reaction-id block leaves the histograms unchanged. -/
theorem aggStepReactIds_hists (st : AggState) (m : RawMsg) :
    (aggStepReactIds st m).by_hour = st.by_hour ∧ (aggStepReactIds st m).by_day = st.by_day := by
  unfold aggStepReactIds
  repeat' split
  all_goals exact ⟨rfl, rfl⟩

/-- The media block leaves the histograms unchanged. -/
theorem aggStepMedia_hists (st : AggState) (m : RawMsg) :
    (aggStepMedia st m).by_hour = st.by_hour ∧ (aggStepMedia st m).by_day = st.by_day := by
  unfold aggStepMedia
  repeat' split
  all_goals exact ⟨rfl, rfl⟩

/-- The poll block leaves the histograms unchanged. -/
theorem aggStepPoll_hists (st : AggState) (m : RawMsg) :
    (aggStepPoll st m).by_hour = st.by_hour ∧ (aggStepPoll st m).by_day = st.by_day := by
  unfold aggStepPoll
  repeat' split
  all_goals exact ⟨rfl, rfl⟩

/-- The author block leaves the histograms unchanged. -/
theorem aggStepAuthor_hists (st : AggState) (m : RawMsg) :
    (aggStepAuthor st m).by_hour = st.by_hour ∧ (aggStepAuthor st m).by_day = st.by_day := by
  unfold aggStepAuthor
  repeat' split
  all_goals exact ⟨rfl, rfl⟩

/-- The reaction-tally block leaves the histograms unchanged. -/
theorem aggStepReactions_hists (st : AggState) (m : RawMsg) :
    (aggStepReactions st m).by_hour = st.by_hour ∧
    (aggStepReactions st m).by_day = st.by_day := by
  unfold aggStepReactions
  dsimp only
  repeat' split
  all_goals exact ⟨rfl, rfl⟩

/-- The date block preserves the histogram shape: every hour key it adds is
below 24 with a positive count, and every day key it adds is an ISO calendar
date, provided the message's `date_norm` is normalizer-formatted. -/
theorem aggStepDate_hists (st : AggState) (m : RawMsg)
    (hd : ∀ s, (metaOf m).date_norm = some s → ∃ d tz, s = isoformatSec d tz)
    (H1 : ∀ p ∈ st.by_hour, p.1 < 24 ∧ 0 < p.2)
    (H2 : ∀ p ∈ st.by_day, IsIsoDate p.1 = true) :
    (∀ p ∈ (aggStepDate st m).by_hour, p.1 < 24 ∧ 0 < p.2) ∧
    (∀ p ∈ (aggStepDate st m).by_day, IsIsoDate p.1 = true) := by
  unfold aggStepDate
  cases hdn : (metaOf m).date_norm with
  | none => exact ⟨H1, H2⟩
  | some dn =>
    obtain ⟨d, tz, hiso⟩ := hd dn hdn
    dsimp only
    by_cases hlen : 10 ≤ pylen dn
    · rw [if_pos hlen]
      cases hfi : fromIso dn.data with
      | none =>
        dsimp only
        refine ⟨H1, ?_⟩
        intro p hp
        rcases bump_fst st.by_day (pyslice dn 10) p hp with h | h
        · rw [h, hiso]; exact isoformat_day_shape d tz
        · exact H2 p h
      | some dto =>
        dsimp only
        constructor
        · intro p hp
          rcases bump_fst st.by_hour dto.1.hour p hp with h | h
          · refine ⟨?_, bump_pos st.by_hour dto.1.hour p (fun q hq => (H1 q hq).2) hp⟩
            rw [h]
            exact fromIso_hour_lt dn.data dto.1 dto.2 (by rw [hfi])
          · exact ⟨(H1 p h).1, bump_pos st.by_hour dto.1.hour p (fun q hq => (H1 q hq).2) hp⟩
        · intro p hp
          rcases bump_fst st.by_day (pyslice dn 10) p hp with h | h
          · rw [h, hiso]; exact isoformat_day_shape d tz
          · exact H2 p h
    · rw [if_neg hlen]
      exact ⟨H1, H2⟩

/-- One full loop-body step preserves the histogram shape. -/
theorem aggStep_hists (st : AggState) (m : RawMsg)
    (hd : ∀ s, (metaOf m).date_norm = some s → ∃ d tz, s = isoformatSec d tz)
    (H1 : ∀ p ∈ st.by_hour, p.1 < 24 ∧ 0 < p.2)
    (H2 : ∀ p ∈ st.by_day, IsIsoDate p.1 = true) :
    (∀ p ∈ (aggStep st m).by_hour, p.1 < 24 ∧ 0 < p.2) ∧
    (∀ p ∈ (aggStep st m).by_day, IsIsoDate p.1 = true) := by
  unfold aggStep
  have hA : (aggStepAuthor (aggStepPoll (aggStepMedia (aggStepReactIds
      (aggStepEdited (aggStepIds st m) m) m) m) m) m).by_hour = st.by_hour := by
    rw [(aggStepAuthor_hists _ _).1, (aggStepPoll_hists _ _).1, (aggStepMedia_hists _ _).1,
        (aggStepReactIds_hists _ _).1, (aggStepEdited_hists _ _).1, (aggStepIds_hists _ _).1]
  have hB : (aggStepAuthor (aggStepPoll (aggStepMedia (aggStepReactIds
      (aggStepEdited (aggStepIds st m) m) m) m) m) m).by_day = st.by_day := by
    rw [(aggStepAuthor_hists _ _).2, (aggStepPoll_hists _ _).2, (aggStepMedia_hists _ _).2,
        (aggStepReactIds_hists _ _).2, (aggStepEdited_hists _ _).2, (aggStepIds_hists _ _).2]
  have hdate := aggStepDate_hists
    (aggStepAuthor (aggStepPoll (aggStepMedia (aggStepReactIds
      (aggStepEdited (aggStepIds st m) m) m) m) m) m) m hd
    (hA.symm ▸ H1) (hB.symm ▸ H2)
  rw [(aggStepReactions_hists _ _).1, (aggStepReactions_hists _ _).2]
  exact hdate

/-- The whole first pass preserves the histogram shape. -/
theorem aggPass1_hists_aux :
    ∀ (msgs : List RawMsg) (st : AggState),
      (∀ m ∈ msgs, ∀ s, (metaOf m).date_norm = some s → ∃ d tz, s = isoformatSec d tz) →
      ((∀ p ∈ st.by_hour, p.1 < 24 ∧ 0 < p.2) ∧
       (∀ p ∈ st.by_day, IsIsoDate p.1 = true)) →
      (∀ p ∈ (msgs.foldl (fun st m => if isMessage m then aggStep st m else st) st).by_hour,
          p.1 < 24 ∧ 0 < p.2) ∧
      (∀ p ∈ (msgs.foldl (fun st m => if isMessage m then aggStep st m else st) st).by_day,
          IsIsoDate p.1 = true) := by
  intro msgs
  induction msgs with
  | nil => intro st _ H; exact H
  | cons m t ih =>
    intro st hd H
    rw [List.foldl_cons]
    refine ih _ (fun m' hm' => hd m' (List.mem_cons_of_mem m hm')) ?_
    by_cases hmsg : isMessage m
    · rw [if_pos hmsg]
      exact aggStep_hists st m (hd m (List.mem_cons_self m t)) H.1 H.2
    · rw [if_neg hmsg]
      exact H

/-- Claim C3 (amended): in the aggregate output, the hour histogram contains
only hour keys between 0 and 23 and only with positive counts — hours with a
zero message count are absent, not listed with a zero value — and the day
histogram keys are ISO-8601 `YYYY-MM-DD` calendar dates whenever the
messages' `date_norm` fields carry normalizer-formatted timestamps.  (The
original "all 24 keys present" reading is refuted by
`by_hour_not_all_keys_cex`.) -/
theorem hour_day_histograms (msgs : List RawMsg)
    (hd : ∀ m ∈ msgs, ∀ s, (metaOf m).date_norm = some s →
        ∃ d tz, s = isoformatSec d tz) :
    (∀ p ∈ (build_aggregates_json msgs).by_hour, p.1 < 24 ∧ 0 < p.2) ∧
    (∀ p ∈ (build_aggregates_json msgs).by_day, IsIsoDate p.1 = true) := by
  have h := aggPass1_hists_aux msgs {} hd
    ⟨fun p hp => absurd hp (List.not_mem_nil p), fun p hp => absurd hp (List.not_mem_nil p)⟩
  have hb1 : (build_aggregates_json msgs).by_hour =
      ssort (fun a b => a.1 ≤ b.1) (aggPass1 msgs).by_hour := rfl
  have hb2 : (build_aggregates_json msgs).by_day =
      ssort (fun a b => a.1 ≤ b.1) (aggPass1 msgs).by_day := rfl
  constructor
  · intro p hp
    rw [hb1] at hp
    exact h.1 p ((ssort_mem _ _ p).mp hp)
  · intro p hp
    rw [hb2] at hp
    exact h.2 p ((ssort_mem _ _ p).mp hp)

/-- A message whose normalized timestamp falls in hour 5 (as the normalizer
formats them). -/
def c3msg : RawMsg :=
  { mtype := some "message", mid := some 1,
    metaNorm := some ⟨some "2024-01-02T05:06:07+00:00", none, none, none⟩ }

/-- Counterexample to claim C3 as stated: for the single-message document
with one message at hour 5, the hour histogram is exactly `[(5, 1)]` — it
does not contain all 24 keys 0 through 23. -/
theorem by_hour_not_all_keys_cex :
    (build_aggregates_json [c3msg]).by_hour = [(5, 1)] ∧
    ¬ (∀ h : Nat, h < 24 →
        h ∈ (build_aggregates_json [c3msg]).by_hour.map Prod.fst) := by
  constructor
  · decide
  · decide

/-- Witness for `hour_day_histograms` at the single-message document of
`c3msg`. -/
theorem hour_day_histograms_witness :
    (∀ p ∈ (build_aggregates_json [c3msg]).by_hour, p.1 < 24 ∧ 0 < p.2) ∧
    (∀ p ∈ (build_aggregates_json [c3msg]).by_day, IsIsoDate p.1 = true) := by
  refine hour_day_histograms [c3msg] ?_
  intro m hm s hs
  refine ⟨⟨2024, 1, 2, 5, 6, 7⟩, 0, ?_⟩
  have hme : m = c3msg := by simpa using hm
  subst hme
  have : s = "2024-01-02T05:06:07+00:00" := by
    simpa [c3msg, metaOf] using hs.symm
  rw [this]
  decide

/-! ## End-to-end reply semantics (claim C6) -/

/-- Message id 1, author A, no reply. -/
def c6m1 : RawMsg := { mtype := some "message", mid := some 1, from_id := some "A" }

/-- Message id 2, author B, replies to 1. -/
def c6m2 : RawMsg :=
  { mtype := some "message", mid := some 2, from_id := some "B", reply_to := some 1 }

/-- Message id 3, author A, replies to 2. -/
def c6m3 : RawMsg :=
  { mtype := some "message", mid := some 3, from_id := some "A", reply_to := some 2 }

/-- Claim C6: on the three-message document — id 1 (author A, no reply),
id 2 (author B, replies to 1), id 3 (author A, replies to 2) — the thread
rooted at id 1 has size 3 with 2 unique participants; the directed reply
matrix is exactly B→A:1, A→B:1 (the A→B edge shows the reply of A to B's
message is not treated as a self-reply); and the quotability index is
exactly A:1, B:1. -/
theorem end_to_end_reply_semantics :
    alookup (threadPass [c6m1, c6m2, c6m3]
        (aggPass1 [c6m1, c6m2, c6m3]).id_to_parent).thread_size 1 = some 3 ∧
    ((alookup (threadPass [c6m1, c6m2, c6m3]
        (aggPass1 [c6m1, c6m2, c6m3]).id_to_parent).thread_participants 1).getD []).length
      = 2 ∧
    (socPass [c6m1, c6m2, c6m3] (socPrePass [c6m1, c6m2, c6m3])).reply_matrix
      = [("B", [("A", 1)]), ("A", [("B", 1)])] ∧
    (socPass [c6m1, c6m2, c6m3] (socPrePass [c6m1, c6m2, c6m3])).quotability_counter
      = [("A", 1), ("B", 1)] := by
  refine ⟨by decide, by decide, by decide, by decide⟩

/-! ## Percentage bounds (claim C4) -/

/-- Membership after a set insertion. -/
theorem mem_sadd {α : Type} [DecidableEq α] (l : List α) (x y : α) :
    y ∈ sadd l x ↔ y = x ∨ y ∈ l := by
  unfold sadd
  split
  · next hx =>
    constructor
    · exact fun h => Or.inr h
    · rintro (rfl | h)
      · exact hx
      · exact h
  · simp [or_comm]

/-- Set insertion keeps lists duplicate-free. -/
theorem sadd_nodup {α : Type} [DecidableEq α] (l : List α) (x : α)
    (h : l.Nodup) : (sadd l x).Nodup := by
  unfold sadd
  split
  · exact h
  · next hx => rw [List.nodup_append]; simp [h, hx]

/-- Set insertion is monotone with respect to inclusion. -/
theorem sadd_sub_sadd {α : Type} [DecidableEq α] (l L : List α) (x : α)
    (h : l ⊆ L) : sadd l x ⊆ sadd L x := by
  intro y hy
  rw [mem_sadd] at hy ⊢
  rcases hy with rfl | hy
  · exact Or.inl rfl
  · exact Or.inr (h hy)

/-- Inclusion into an extended set. -/
theorem sub_sadd {α : Type} [DecidableEq α] (l L : List α) (x : α)
    (h : l ⊆ L) : l ⊆ sadd L x := by
  intro y hy
  rw [mem_sadd]
  exact Or.inr (h hy)

/-- Inserting an element already covered keeps the inclusion. -/
theorem sadd_sub_of_mem {α : Type} [DecidableEq α] (l L : List α) (x : α)
    (h : l ⊆ L) (hx : x ∈ L) : sadd l x ⊆ L := by
  intro y hy
  rw [mem_sadd] at hy
  rcases hy with rfl | hy
  · exact hx
  · exact h hy

/-- A duplicate-free sublist is no longer than its superlist. -/
theorem length_le_of_nodup_subset {α : Type} (l L : List α)
    (hnd : l.Nodup) (h : l ⊆ L) : l.length ≤ L.length :=
  (hnd.subperm h).length_le

/-- The computed hundredths are never negative. -/
theorem pct100_nonneg (n tot : Nat) : 0 ≤ pct100 n tot := by
  unfold pct100
  split
  · omega
  · dsimp only
    split
    · positivity
    · split
      · positivity
      · split <;> positivity

/-- The computed hundredths never exceed 10000 (that is, the percentage
never exceeds 100) when the numerator counts at most the denominator. -/
theorem pct100_le (n tot : Nat) (h : n ≤ tot) : pct100 n tot ≤ 10000 := by
  unfold pct100
  split
  · omega
  · next htot =>
    dsimp only
    have htotpos : 0 < tot := Nat.pos_of_ne_zero htot
    have hle : n * 10000 ≤ tot * 10000 := by omega
    have hq : n * 10000 / tot ≤ 10000 := by
      calc n * 10000 / tot ≤ tot * 10000 / tot := Nat.div_le_div_right hle
        _ = 10000 := Nat.mul_div_cancel_left 10000 htotpos
    have hdm := Nat.div_add_mod (n * 10000) tot
    have hmlt := Nat.mod_lt (n * 10000) htotpos
    split
    · exact_mod_cast hq
    · next hnot =>
      have hrpos : 0 < n * 10000 % tot := by omega
      have hqlt : n * 10000 / tot < 10000 := by
        by_contra hge
        push_neg at hge
        have hqe : n * 10000 / tot = 10000 := le_antisymm hq hge
        rw [hqe] at hdm
        omega
      have hs : n * 10000 / tot + 1 ≤ 10000 := hqlt
      split
      · exact_mod_cast hs
      · split
        · exact_mod_cast hq
        · exact_mod_cast hs

/-- Floor of a rational quotient of naturals is natural division. -/
theorem floor_nat_div (a b : Nat) (hb : 0 < b) :
    ⌊(a : ℚ) / (b : ℚ)⌋ = ((a / b : ℕ) : ℤ) := by
  have hbq : (0 : ℚ) < (b : ℚ) := by exact_mod_cast hb
  rw [Int.floor_eq_iff]
  constructor
  · rw [le_div_iff₀ hbq]
    have h1 : (a / b) * b ≤ a := Nat.div_mul_le_self a b
    exact_mod_cast h1
  · rw [div_lt_iff₀ hbq]
    have hmlt := Nat.mod_lt a hb
    have h2 : a < (a / b + 1) * b := by
      calc a = b * (a / b) + a % b := (Nat.div_add_mod a b).symm
        _ < b * (a / b) + b := by omega
        _ = (a / b + 1) * b := by ring
    exact_mod_cast h2

/-- Fractional part of a rational quotient of naturals. -/
theorem frac_nat_div (a b : Nat) (hb : 0 < b) :
    (a : ℚ) / (b : ℚ) - ((a / b : ℕ) : ℚ) = ((a % b : ℕ) : ℚ) / (b : ℚ) := by
  have hbq : ((b : ℚ)) ≠ 0 := by
    exact_mod_cast Nat.pos_iff_ne_zero.mp hb
  have hdm := Nat.div_add_mod a b
  field_simp
  have hcast : (a : ℚ) = (b : ℚ) * ((a / b : ℕ) : ℚ) + ((a % b : ℕ) : ℚ) := by
    exact_mod_cast congrArg (fun x : ℕ => (x : ℚ)) hdm.symm
  rw [hcast]
  ring

/-- The integer-arithmetic `pct100` computes exactly round-half-to-even of
`part / total * 100 * 100`, the exact meaning of the source's
`round(part / total * 100, 2)` scaled by 100. -/
theorem pct100_eq_roundHalfEven (n tot : Nat) (h : 0 < tot) :
    pct100 n tot = roundHalfEven ((n : ℚ) / (tot : ℚ) * 100 * 100) := by
  have hq : (n : ℚ) / (tot : ℚ) * 100 * 100 = ((n * 10000 : ℕ) : ℚ) / (tot : ℚ) := by
    push_cast
    ring
  rw [hq]
  unfold pct100 roundHalfEven
  rw [if_neg (by omega)]
  dsimp only
  rw [floor_nat_div (n * 10000) tot h]
  have hbq : (0 : ℚ) < (tot : ℚ) := by exact_mod_cast h
  have hfr : ((n * 10000 : ℕ) : ℚ) / (tot : ℚ) - (((n * 10000 / tot : ℕ) : ℤ) : ℚ)
      = ((n * 10000 % tot : ℕ) : ℚ) / (tot : ℚ) := by
    push_cast
    have hx := frac_nat_div (n * 10000) tot h
    push_cast at hx
    exact hx
  rw [hfr]
  have hc1 : (((n * 10000 % tot : ℕ) : ℚ) / (tot : ℚ) < 1 / 2) ↔
      (2 * (n * 10000 % tot) < tot) := by
    rw [div_lt_iff₀ hbq, ← Nat.cast_lt (α := ℚ)]
    push_cast
    constructor <;> intro <;> linarith
  have hc2 : (1 / 2 < ((n * 10000 % tot : ℕ) : ℚ) / (tot : ℚ)) ↔
      (tot < 2 * (n * 10000 % tot)) := by
    rw [lt_div_iff₀ hbq, ← Nat.cast_lt (α := ℚ)]
    push_cast
    constructor <;> intro <;> linarith
  have hc3 : (((n * 10000 / tot : ℕ) : ℤ) % 2 = 0) ↔ ((n * 10000 / tot) % 2 = 0) := by
    constructor
    · intro hx; exact_mod_cast hx
    · intro hx; exact_mod_cast hx
  simp only [hc1, hc2, hc3]

/-- The poll block leaves all id sets and the media counter unchanged. -/
theorem aggStepPoll_idsets (st : AggState) (m : RawMsg) :
    (aggStepPoll st m).message_ids = st.message_ids ∧
    (aggStepPoll st m).reply_ids = st.reply_ids ∧
    (aggStepPoll st m).edited_ids = st.edited_ids ∧
    (aggStepPoll st m).react_ids = st.react_ids ∧
    (aggStepPoll st m).media_ids = st.media_ids ∧
    (aggStepPoll st m).photo_ids = st.photo_ids ∧
    (aggStepPoll st m).gif_ids = st.gif_ids ∧
    (aggStepPoll st m).other_media_ids = st.other_media_ids ∧
    (aggStepPoll st m).media_counter = st.media_counter := by
  unfold aggStepPoll
  repeat' split
  all_goals exact ⟨rfl, rfl, rfl, rfl, rfl, rfl, rfl, rfl, rfl⟩

/-- The author block leaves all id sets and the media counter unchanged. -/
theorem aggStepAuthor_idsets (st : AggState) (m : RawMsg) :
    (aggStepAuthor st m).message_ids = st.message_ids ∧
    (aggStepAuthor st m).reply_ids = st.reply_ids ∧
    (aggStepAuthor st m).edited_ids = st.edited_ids ∧
    (aggStepAuthor st m).react_ids = st.react_ids ∧
    (aggStepAuthor st m).media_ids = st.media_ids ∧
    (aggStepAuthor st m).photo_ids = st.photo_ids ∧
    (aggStepAuthor st m).gif_ids = st.gif_ids ∧
    (aggStepAuthor st m).other_media_ids = st.other_media_ids ∧
    (aggStepAuthor st m).media_counter = st.media_counter := by
  unfold aggStepAuthor
  repeat' split
  all_goals exact ⟨rfl, rfl, rfl, rfl, rfl, rfl, rfl, rfl, rfl⟩

/-- The date block leaves all id sets and the media counter unchanged. -/
theorem aggStepDate_idsets (st : AggState) (m : RawMsg) :
    (aggStepDate st m).message_ids = st.message_ids ∧
    (aggStepDate st m).reply_ids = st.reply_ids ∧
    (aggStepDate st m).edited_ids = st.edited_ids ∧
    (aggStepDate st m).react_ids = st.react_ids ∧
    (aggStepDate st m).media_ids = st.media_ids ∧
    (aggStepDate st m).photo_ids = st.photo_ids ∧
    (aggStepDate st m).gif_ids = st.gif_ids ∧
    (aggStepDate st m).other_media_ids = st.other_media_ids ∧
    (aggStepDate st m).media_counter = st.media_counter := by
  unfold aggStepDate
  repeat' split
  all_goals exact ⟨rfl, rfl, rfl, rfl, rfl, rfl, rfl, rfl, rfl⟩

/-- The reaction-tally block leaves all id sets and the media counter
unchanged. -/
theorem aggStepReactions_idsets (st : AggState) (m : RawMsg) :
    (aggStepReactions st m).message_ids = st.message_ids ∧
    (aggStepReactions st m).reply_ids = st.reply_ids ∧
    (aggStepReactions st m).edited_ids = st.edited_ids ∧
    (aggStepReactions st m).react_ids = st.react_ids ∧
    (aggStepReactions st m).media_ids = st.media_ids ∧
    (aggStepReactions st m).photo_ids = st.photo_ids ∧
    (aggStepReactions st m).gif_ids = st.gif_ids ∧
    (aggStepReactions st m).other_media_ids = st.other_media_ids ∧
    (aggStepReactions st m).media_counter = st.media_counter := by
  unfold aggStepReactions
  dsimp only
  repeat' split
  all_goals exact ⟨rfl, rfl, rfl, rfl, rfl, rfl, rfl, rfl, rfl⟩

/-- The edited block touches only the edited-id set, extending it by the
message id when an edit marker exists. -/
theorem aggStepEdited_idsets (st : AggState) (m : RawMsg) :
    (aggStepEdited st m).message_ids = st.message_ids ∧
    (aggStepEdited st m).reply_ids = st.reply_ids ∧
    (aggStepEdited st m).react_ids = st.react_ids ∧
    (aggStepEdited st m).media_ids = st.media_ids ∧
    (aggStepEdited st m).photo_ids = st.photo_ids ∧
    (aggStepEdited st m).gif_ids = st.gif_ids ∧
    (aggStepEdited st m).other_media_ids = st.other_media_ids ∧
    (aggStepEdited st m).media_counter = st.media_counter ∧
    ((aggStepEdited st m).edited_ids = st.edited_ids ∨
     ∃ mid, m.mid = some mid ∧
       (aggStepEdited st m).edited_ids = sadd st.edited_ids mid) := by
  unfold aggStepEdited
  split
  · split
    · next mid heq =>
      exact ⟨rfl, rfl, rfl, rfl, rfl, rfl, rfl, rfl, Or.inr ⟨mid, heq, rfl⟩⟩
    · exact ⟨rfl, rfl, rfl, rfl, rfl, rfl, rfl, rfl, Or.inl rfl⟩
  · exact ⟨rfl, rfl, rfl, rfl, rfl, rfl, rfl, rfl, Or.inl rfl⟩

/-- The reaction-id block touches only the reaction-id set. -/
theorem aggStepReactIds_idsets (st : AggState) (m : RawMsg) :
    (aggStepReactIds st m).message_ids = st.message_ids ∧
    (aggStepReactIds st m).reply_ids = st.reply_ids ∧
    (aggStepReactIds st m).edited_ids = st.edited_ids ∧
    (aggStepReactIds st m).media_ids = st.media_ids ∧
    (aggStepReactIds st m).photo_ids = st.photo_ids ∧
    (aggStepReactIds st m).gif_ids = st.gif_ids ∧
    (aggStepReactIds st m).other_media_ids = st.other_media_ids ∧
    (aggStepReactIds st m).media_counter = st.media_counter ∧
    ((aggStepReactIds st m).react_ids = st.react_ids ∨
     ∃ mid, m.mid = some mid ∧
       (aggStepReactIds st m).react_ids = sadd st.react_ids mid) := by
  unfold aggStepReactIds
  split
  · split
    · next mid heq =>
      exact ⟨rfl, rfl, rfl, rfl, rfl, rfl, rfl, rfl, Or.inr ⟨mid, heq, rfl⟩⟩
    · exact ⟨rfl, rfl, rfl, rfl, rfl, rfl, rfl, rfl, Or.inl rfl⟩
  · exact ⟨rfl, rfl, rfl, rfl, rfl, rfl, rfl, rfl, Or.inl rfl⟩

/-- The id block: `message_ids` gains the message id, `reply_ids` gains it
when a reply pointer exists, everything else is unchanged. -/
theorem aggStepIds_idsets (st : AggState) (m : RawMsg) :
    (aggStepIds st m).edited_ids = st.edited_ids ∧
    (aggStepIds st m).react_ids = st.react_ids ∧
    (aggStepIds st m).media_ids = st.media_ids ∧
    (aggStepIds st m).photo_ids = st.photo_ids ∧
    (aggStepIds st m).gif_ids = st.gif_ids ∧
    (aggStepIds st m).other_media_ids = st.other_media_ids ∧
    (aggStepIds st m).media_counter = st.media_counter ∧
    ((m.mid = none ∧ (aggStepIds st m).message_ids = st.message_ids ∧
      (aggStepIds st m).reply_ids = st.reply_ids) ∨
     ∃ mid, m.mid = some mid ∧
       (aggStepIds st m).message_ids = sadd st.message_ids mid ∧
       ((aggStepIds st m).reply_ids = sadd st.reply_ids mid ∨
        (aggStepIds st m).reply_ids = st.reply_ids)) := by
  unfold aggStepIds
  split
  · next mid heq =>
    dsimp only
    refine ⟨rfl, rfl, rfl, rfl, rfl, rfl, rfl, Or.inr ⟨mid, heq, rfl, ?_⟩⟩
    split
    · exact Or.inl rfl
    · exact Or.inr rfl
  · next heq => exact ⟨rfl, rfl, rfl, rfl, rfl, rfl, rfl, Or.inl ⟨heq, rfl, rfl⟩⟩

/-- The media block: all media id sets and the counter, with the counter
bumped even when the message has no integer id. -/
theorem aggStepMedia_idsets (st : AggState) (m : RawMsg) :
    (aggStepMedia st m).message_ids = st.message_ids ∧
    (aggStepMedia st m).reply_ids = st.reply_ids ∧
    (aggStepMedia st m).edited_ids = st.edited_ids ∧
    (aggStepMedia st m).react_ids = st.react_ids ∧
    (((metaOf m).media_cat = none ∧
      (aggStepMedia st m).media_ids = st.media_ids ∧
      (aggStepMedia st m).photo_ids = st.photo_ids ∧
      (aggStepMedia st m).gif_ids = st.gif_ids ∧
      (aggStepMedia st m).other_media_ids = st.other_media_ids ∧
      (aggStepMedia st m).media_counter = st.media_counter) ∨
     ∃ cat, (metaOf m).media_cat = some cat ∧
       (aggStepMedia st m).media_counter = bump st.media_counter cat ∧
       ((m.mid = none ∧
         (aggStepMedia st m).media_ids = st.media_ids ∧
         (aggStepMedia st m).photo_ids = st.photo_ids ∧
         (aggStepMedia st m).gif_ids = st.gif_ids ∧
         (aggStepMedia st m).other_media_ids = st.other_media_ids) ∨
        ∃ mid, m.mid = some mid ∧
          (aggStepMedia st m).media_ids = sadd st.media_ids mid ∧
          ((aggStepMedia st m).photo_ids = sadd st.photo_ids mid ∨
           (aggStepMedia st m).photo_ids = st.photo_ids) ∧
          ((aggStepMedia st m).gif_ids = sadd st.gif_ids mid ∨
           (aggStepMedia st m).gif_ids = st.gif_ids) ∧
          ((aggStepMedia st m).other_media_ids = sadd st.other_media_ids mid ∨
           (aggStepMedia st m).other_media_ids = st.other_media_ids))) := by
  unfold aggStepMedia
  split
  · next cat heq =>
    dsimp only
    split
    · next mid heqm =>
      dsimp only
      refine ⟨rfl, rfl, rfl, rfl, Or.inr ⟨cat, heq, rfl, Or.inr ⟨mid, heqm, rfl, ?_, ?_, ?_⟩⟩⟩
      · split
        · exact Or.inl rfl
        · exact Or.inr rfl
      · split
        · exact Or.inl rfl
        · exact Or.inr rfl
      · split
        · exact Or.inl rfl
        · exact Or.inr rfl
    · next heqm =>
      exact ⟨rfl, rfl, rfl, rfl,
        Or.inr ⟨cat, heq, rfl, Or.inl ⟨heqm, rfl, rfl, rfl, rfl⟩⟩⟩
  · next heq =>
    exact ⟨rfl, rfl, rfl, rfl, Or.inl ⟨heq, rfl, rfl, rfl, rfl, rfl⟩⟩

/-- A counter increment raises any uniform bound on the entries by at
most one. -/
theorem bump_le {α : Type} [DecidableEq α] (c : List (α × Nat)) (k : α) (n : Nat) :
    (∀ p ∈ c, p.2 ≤ n) → ∀ p ∈ bump c k, p.2 ≤ n + 1 := by
  induction c with
  | nil =>
    intro h p hp
    unfold bump at hp
    rcases List.mem_singleton.mp hp with rfl
    exact Nat.succ_le_succ (Nat.zero_le n)
  | cons hd tl ih =>
    obtain ⟨a, v⟩ := hd
    intro h p hp
    unfold bump at hp
    split at hp
    · rcases List.mem_cons.mp hp with rfl | hmem
      · exact Nat.succ_le_succ (h (a, v) (List.mem_cons_self _ _))
      · exact Nat.le_succ_of_le (h p (List.mem_cons_of_mem _ hmem))
    · rcases List.mem_cons.mp hp with rfl | hmem
      · exact Nat.le_succ_of_le (h (a, v) (List.mem_cons_self _ _))
      · exact ih (fun q hq => h q (List.mem_cons_of_mem _ hq)) p hmem

/-- Inserting a fresh element grows the set by exactly one entry. -/
theorem length_sadd_not_mem {α : Type} [DecidableEq α] (l : List α) (x : α)
    (h : x ∉ l) : (sadd l x).length = l.length + 1 := by
  unfold sadd
  rw [if_neg h]
  simp

/-- Structural invariant of the id sets of the first aggregation pass: each
set is duplicate-free, the reply, edited, reaction and media ids are all
recorded message ids, and the photo, GIF and other buckets are carved out of
the media ids. -/
def C4Inv (st : AggState) : Prop :=
  st.message_ids.Nodup ∧ st.reply_ids.Nodup ∧ st.edited_ids.Nodup ∧
  st.react_ids.Nodup ∧ st.media_ids.Nodup ∧ st.photo_ids.Nodup ∧
  st.gif_ids.Nodup ∧ st.other_media_ids.Nodup ∧
  st.reply_ids ⊆ st.message_ids ∧ st.edited_ids ⊆ st.message_ids ∧
  st.react_ids ⊆ st.message_ids ∧ st.media_ids ⊆ st.message_ids ∧
  st.photo_ids ⊆ st.media_ids ∧ st.gif_ids ⊆ st.media_ids ∧
  st.other_media_ids ⊆ st.media_ids

/-- Counter bound invariant: every media category count is at most the
number of recorded media message ids. -/
def MCInv (st : AggState) : Prop :=
  ∀ p ∈ st.media_counter, p.2 ≤ st.media_ids.length

/-- Collapse of the step chain: the four trailing blocks leave every id set
and the media counter unchanged, so the fields of a full step are those
after the first four blocks. -/
theorem aggStep_fields (st : AggState) (m : RawMsg) :
    (aggStep st m).message_ids = (aggStepIds st m).message_ids ∧
    (aggStep st m).reply_ids = (aggStepIds st m).reply_ids ∧
    (aggStep st m).edited_ids = (aggStepEdited (aggStepIds st m) m).edited_ids ∧
    (aggStep st m).react_ids =
      (aggStepReactIds (aggStepEdited (aggStepIds st m) m) m).react_ids ∧
    (aggStep st m).media_ids =
      (aggStepMedia (aggStepReactIds (aggStepEdited (aggStepIds st m) m) m)
        m).media_ids ∧
    (aggStep st m).photo_ids =
      (aggStepMedia (aggStepReactIds (aggStepEdited (aggStepIds st m) m) m)
        m).photo_ids ∧
    (aggStep st m).gif_ids =
      (aggStepMedia (aggStepReactIds (aggStepEdited (aggStepIds st m) m) m)
        m).gif_ids ∧
    (aggStep st m).other_media_ids =
      (aggStepMedia (aggStepReactIds (aggStepEdited (aggStepIds st m) m) m)
        m).other_media_ids ∧
    (aggStep st m).media_counter =
      (aggStepMedia (aggStepReactIds (aggStepEdited (aggStepIds st m) m) m)
        m).media_counter := by
  obtain ⟨R1, R2, R3, R4, R5, R6, R7, R8, R9⟩ :=
    aggStepReactions_idsets
      (aggStepDate
        (aggStepAuthor
          (aggStepPoll
            (aggStepMedia (aggStepReactIds (aggStepEdited (aggStepIds st m) m) m)
              m) m) m) m) m
  obtain ⟨D1, D2, D3, D4, D5, D6, D7, D8, D9⟩ :=
    aggStepDate_idsets
      (aggStepAuthor
        (aggStepPoll
          (aggStepMedia (aggStepReactIds (aggStepEdited (aggStepIds st m) m) m)
            m) m) m) m
  obtain ⟨A1, A2, A3, A4, A5, A6, A7, A8, A9⟩ :=
    aggStepAuthor_idsets
      (aggStepPoll
        (aggStepMedia (aggStepReactIds (aggStepEdited (aggStepIds st m) m) m)
          m) m) m
  obtain ⟨P1, P2, P3, P4, P5, P6, P7, P8, P9⟩ :=
    aggStepPoll_idsets
      (aggStepMedia (aggStepReactIds (aggStepEdited (aggStepIds st m) m) m) m) m
  obtain ⟨M1, M2, M3, M4, _⟩ :=
    aggStepMedia_idsets (aggStepReactIds (aggStepEdited (aggStepIds st m) m) m) m
  obtain ⟨X1, X2, X3, _, _, _, _, _, _⟩ :=
    aggStepReactIds_idsets (aggStepEdited (aggStepIds st m) m) m
  obtain ⟨E1, E2, _, _, _, _, _, _, _⟩ := aggStepEdited_idsets (aggStepIds st m) m
  unfold aggStep
  refine ⟨?_, ?_, ?_, ?_, ?_, ?_, ?_, ?_, ?_⟩
  · rw [R1, D1, A1, P1, M1, X1, E1]
  · rw [R2, D2, A2, P2, M2, X2, E2]
  · rw [R3, D3, A3, P3, M3, X3]
  · rw [R4, D4, A4, P4, M4]
  · rw [R5, D5, A5, P5]
  · rw [R6, D6, A6, P6]
  · rw [R7, D7, A7, P7]
  · rw [R8, D8, A8, P8]
  · rw [R9, D9, A9, P9]

/-- One step of the first pass preserves the id-set and counter-bound
invariants, provided a media-bearing message carries an integer id not yet
recorded, and the step can only extend the recorded message ids by that
message id. -/
theorem aggStep_c4 (st : AggState) (m : RawMsg)
    (hinv : C4Inv st) (hmc : MCInv st)
    (hmedia : (metaOf m).media_cat ≠ none → m.mid ≠ none)
    (hfresh : ∀ i, m.mid = some i → i ∉ st.message_ids) :
    C4Inv (aggStep st m) ∧ MCInv (aggStep st m) ∧
    (∀ i, i ∈ (aggStep st m).message_ids →
      i ∈ st.message_ids ∨ m.mid = some i) := by
  obtain ⟨F1, F2, F3, F4, F5, F6, F7, F8, F9⟩ := aggStep_fields st m
  obtain ⟨I1, I2, I3, I4, I5, I6, I7, IX⟩ := aggStepIds_idsets st m
  obtain ⟨E1, E2, E3, E4, E5, E6, E7, E8, EE⟩ :=
    aggStepEdited_idsets (aggStepIds st m) m
  obtain ⟨X1, X2, X3, X4, X5, X6, X7, X8, XR⟩ :=
    aggStepReactIds_idsets (aggStepEdited (aggStepIds st m) m) m
  obtain ⟨M1, M2, M3, M4, MX⟩ :=
    aggStepMedia_idsets (aggStepReactIds (aggStepEdited (aggStepIds st m) m) m) m
  unfold C4Inv at hinv
  unfold MCInv at hmc
  obtain ⟨n1, n2, n3, n4, n5, n6, n7, n8, u1, u2, u3, u4, u5, u6, u7⟩ := hinv
  unfold C4Inv MCInv
  rcases IX with ⟨hmidnone, hMsg, hRep⟩ | ⟨mid, hmid, hMsg, hRepOr⟩
  · have hMsgF : (aggStep st m).message_ids = st.message_ids := by rw [F1, hMsg]
    have hRepF : (aggStep st m).reply_ids = st.reply_ids := by rw [F2, hRep]
    have hEdF : (aggStep st m).edited_ids = st.edited_ids := by
      rcases EE with h | ⟨mid2, hmid2, _⟩
      · rw [F3, h, I1]
      · rw [hmidnone] at hmid2; exact Option.noConfusion hmid2
    have hReF : (aggStep st m).react_ids = st.react_ids := by
      rcases XR with h | ⟨mid2, hmid2, _⟩
      · rw [F4, h, E3, I2]
      · rw [hmidnone] at hmid2; exact Option.noConfusion hmid2
    have hcatnone : (metaOf m).media_cat = none := by
      cases hcatE : (metaOf m).media_cat with
      | none => rfl
      | some cat => exact absurd hmidnone (hmedia (by rw [hcatE]; simp))
    obtain ⟨hMdF, hPhF, hGfF, hOtF, hCtF⟩ :
        (aggStep st m).media_ids = st.media_ids ∧
        (aggStep st m).photo_ids = st.photo_ids ∧
        (aggStep st m).gif_ids = st.gif_ids ∧
        (aggStep st m).other_media_ids = st.other_media_ids ∧
        (aggStep st m).media_counter = st.media_counter := by
      rcases MX with ⟨_, h1, h2, h3, h4, h5⟩ | ⟨cat, hcat, _, _⟩
      · exact ⟨by rw [F5, h1, X4, E4, I3], by rw [F6, h2, X5, E5, I4],
               by rw [F7, h3, X6, E6, I5], by rw [F8, h4, X7, E7, I6],
               by rw [F9, h5, X8, E8, I7]⟩
      · rw [hcatnone] at hcat; exact Option.noConfusion hcat
    refine ⟨⟨?_, ?_, ?_, ?_, ?_, ?_, ?_, ?_, ?_, ?_, ?_, ?_, ?_, ?_, ?_⟩, ?_, ?_⟩
    · rw [hMsgF]; exact n1
    · rw [hRepF]; exact n2
    · rw [hEdF]; exact n3
    · rw [hReF]; exact n4
    · rw [hMdF]; exact n5
    · rw [hPhF]; exact n6
    · rw [hGfF]; exact n7
    · rw [hOtF]; exact n8
    · rw [hRepF, hMsgF]; exact u1
    · rw [hEdF, hMsgF]; exact u2
    · rw [hReF, hMsgF]; exact u3
    · rw [hMdF, hMsgF]; exact u4
    · rw [hPhF, hMdF]; exact u5
    · rw [hGfF, hMdF]; exact u6
    · rw [hOtF, hMdF]; exact u7
    · intro p hp
      rw [hCtF] at hp
      rw [hMdF]
      exact hmc p hp
    · intro i hi
      rw [hMsgF] at hi
      exact Or.inl hi
  · have hMsgF : (aggStep st m).message_ids = sadd st.message_ids mid := by
      rw [F1, hMsg]
    have hRepF : (aggStep st m).reply_ids = sadd st.reply_ids mid ∨
        (aggStep st m).reply_ids = st.reply_ids := by
      rcases hRepOr with h | h
      · exact Or.inl (by rw [F2, h])
      · exact Or.inr (by rw [F2, h])
    have hEdF : (aggStep st m).edited_ids = sadd st.edited_ids mid ∨
        (aggStep st m).edited_ids = st.edited_ids := by
      rcases EE with h | ⟨mid2, hmid2, h⟩
      · exact Or.inr (by rw [F3, h, I1])
      · obtain rfl : mid2 = mid := by
          rw [hmid] at hmid2; exact (Option.some.inj hmid2).symm
        exact Or.inl (by rw [F3, h, I1])
    have hReF : (aggStep st m).react_ids = sadd st.react_ids mid ∨
        (aggStep st m).react_ids = st.react_ids := by
      rcases XR with h | ⟨mid2, hmid2, h⟩
      · exact Or.inr (by rw [F4, h, E3, I2])
      · obtain rfl : mid2 = mid := by
          rw [hmid] at hmid2; exact (Option.some.inj hmid2).symm
        exact Or.inl (by rw [F4, h, E3, I2])
    have hMedF :
        ((aggStep st m).media_ids = st.media_ids ∧
         (aggStep st m).photo_ids = st.photo_ids ∧
         (aggStep st m).gif_ids = st.gif_ids ∧
         (aggStep st m).other_media_ids = st.other_media_ids ∧
         (aggStep st m).media_counter = st.media_counter) ∨
        (∃ cat, (metaOf m).media_cat = some cat ∧
         (aggStep st m).media_counter = bump st.media_counter cat ∧
         (aggStep st m).media_ids = sadd st.media_ids mid ∧
         ((aggStep st m).photo_ids = sadd st.photo_ids mid ∨
          (aggStep st m).photo_ids = st.photo_ids) ∧
         ((aggStep st m).gif_ids = sadd st.gif_ids mid ∨
          (aggStep st m).gif_ids = st.gif_ids) ∧
         ((aggStep st m).other_media_ids = sadd st.other_media_ids mid ∨
          (aggStep st m).other_media_ids = st.other_media_ids)) := by
      rcases MX with ⟨_, h1, h2, h3, h4, h5⟩ | ⟨cat, hcat, hctr, inner⟩
      · exact Or.inl ⟨by rw [F5, h1, X4, E4, I3], by rw [F6, h2, X5, E5, I4],
                      by rw [F7, h3, X6, E6, I5], by rw [F8, h4, X7, E7, I6],
                      by rw [F9, h5, X8, E8, I7]⟩
      · rcases inner with ⟨hmidnone, _⟩ | ⟨mid2, hmid2, hmed, hph, hgf, hot⟩
        · rw [hmid] at hmidnone; exact Option.noConfusion hmidnone
        · obtain rfl : mid2 = mid := by
            rw [hmid] at hmid2; exact (Option.some.inj hmid2).symm
          refine Or.inr ⟨cat, hcat, by rw [F9, hctr, X8, E8, I7],
            by rw [F5, hmed, X4, E4, I3], ?_, ?_, ?_⟩
          · rcases hph with h | h
            · exact Or.inl (by rw [F6, h, X5, E5, I4])
            · exact Or.inr (by rw [F6, h, X5, E5, I4])
          · rcases hgf with h | h
            · exact Or.inl (by rw [F7, h, X6, E6, I5])
            · exact Or.inr (by rw [F7, h, X6, E6, I5])
          · rcases hot with h | h
            · exact Or.inl (by rw [F8, h, X7, E7, I6])
            · exact Or.inr (by rw [F8, h, X7, E7, I6])
    refine ⟨⟨?_, ?_, ?_, ?_, ?_, ?_, ?_, ?_, ?_, ?_, ?_, ?_, ?_, ?_, ?_⟩, ?_, ?_⟩
    · rw [hMsgF]; exact sadd_nodup _ _ n1
    · rcases hRepF with h | h
      · rw [h]; exact sadd_nodup _ _ n2
      · rw [h]; exact n2
    · rcases hEdF with h | h
      · rw [h]; exact sadd_nodup _ _ n3
      · rw [h]; exact n3
    · rcases hReF with h | h
      · rw [h]; exact sadd_nodup _ _ n4
      · rw [h]; exact n4
    · rcases hMedF with ⟨h1, _, _, _, _⟩ | ⟨cat, _, _, h1, _, _, _⟩
      · rw [h1]; exact n5
      · rw [h1]; exact sadd_nodup _ _ n5
    · rcases hMedF with ⟨_, h2, _, _, _⟩ | ⟨cat, _, _, _, hph, _, _⟩
      · rw [h2]; exact n6
      · rcases hph with h | h
        · rw [h]; exact sadd_nodup _ _ n6
        · rw [h]; exact n6
    · rcases hMedF with ⟨_, _, h3, _, _⟩ | ⟨cat, _, _, _, _, hgf, _⟩
      · rw [h3]; exact n7
      · rcases hgf with h | h
        · rw [h]; exact sadd_nodup _ _ n7
        · rw [h]; exact n7
    · rcases hMedF with ⟨_, _, _, h4, _⟩ | ⟨cat, _, _, _, _, _, hot⟩
      · rw [h4]; exact n8
      · rcases hot with h | h
        · rw [h]; exact sadd_nodup _ _ n8
        · rw [h]; exact n8
    · rw [hMsgF]
      rcases hRepF with h | h
      · rw [h]; exact sadd_sub_sadd _ _ _ u1
      · rw [h]; exact sub_sadd _ _ _ u1
    · rw [hMsgF]
      rcases hEdF with h | h
      · rw [h]; exact sadd_sub_sadd _ _ _ u2
      · rw [h]; exact sub_sadd _ _ _ u2
    · rw [hMsgF]
      rcases hReF with h | h
      · rw [h]; exact sadd_sub_sadd _ _ _ u3
      · rw [h]; exact sub_sadd _ _ _ u3
    · rw [hMsgF]
      rcases hMedF with ⟨h1, _, _, _, _⟩ | ⟨cat, _, _, h1, _, _, _⟩
      · rw [h1]; exact sub_sadd _ _ _ u4
      · rw [h1]; exact sadd_sub_sadd _ _ _ u4
    · rcases hMedF with ⟨h1, h2, _, _, _⟩ | ⟨cat, _, _, h1, hph, _, _⟩
      · rw [h2, h1]; exact u5
      · rw [h1]
        rcases hph with h | h
        · rw [h]; exact sadd_sub_sadd _ _ _ u5
        · rw [h]; exact sub_sadd _ _ _ u5
    · rcases hMedF with ⟨h1, _, h3, _, _⟩ | ⟨cat, _, _, h1, _, hgf, _⟩
      · rw [h3, h1]; exact u6
      · rw [h1]
        rcases hgf with h | h
        · rw [h]; exact sadd_sub_sadd _ _ _ u6
        · rw [h]; exact sub_sadd _ _ _ u6
    · rcases hMedF with ⟨h1, _, _, h4, _⟩ | ⟨cat, _, _, h1, _, _, hot⟩
      · rw [h4, h1]; exact u7
      · rw [h1]
        rcases hot with h | h
        · rw [h]; exact sadd_sub_sadd _ _ _ u7
        · rw [h]; exact sub_sadd _ _ _ u7
    · intro p hp
      rcases hMedF with ⟨h1, _, _, _, h5⟩ | ⟨cat, hcat, hctr, h1, _, _, _⟩
      · rw [h5] at hp
        rw [h1]
        exact hmc p hp
      · rw [hctr] at hp
        rw [h1]
        have hnotmem : mid ∉ st.media_ids := fun hmem => hfresh mid hmid (u4 hmem)
        rw [length_sadd_not_mem _ _ hnotmem]
        exact bump_le st.media_counter cat _ hmc p hp
    · intro i hi
      rw [hMsgF] at hi
      rcases (mem_sadd _ _ _).mp hi with rfl | h
      · exact Or.inr hmid
      · exact Or.inl h

/-- One step of the first pass preserves the id-set invariant
unconditionally: whatever the message looks like, each id set stays
duplicate-free and the subset relations between the sets persist. -/
theorem aggStep_c4inv (st : AggState) (m : RawMsg) (hinv : C4Inv st) :
    C4Inv (aggStep st m) := by
  obtain ⟨F1, F2, F3, F4, F5, F6, F7, F8, F9⟩ := aggStep_fields st m
  obtain ⟨I1, I2, I3, I4, I5, I6, I7, IX⟩ := aggStepIds_idsets st m
  obtain ⟨E1, E2, E3, E4, E5, E6, E7, E8, EE⟩ :=
    aggStepEdited_idsets (aggStepIds st m) m
  obtain ⟨X1, X2, X3, X4, X5, X6, X7, X8, XR⟩ :=
    aggStepReactIds_idsets (aggStepEdited (aggStepIds st m) m) m
  obtain ⟨M1, M2, M3, M4, MX⟩ :=
    aggStepMedia_idsets (aggStepReactIds (aggStepEdited (aggStepIds st m) m) m) m
  unfold C4Inv at hinv
  obtain ⟨n1, n2, n3, n4, n5, n6, n7, n8, u1, u2, u3, u4, u5, u6, u7⟩ := hinv
  unfold C4Inv
  rcases IX with ⟨hmidnone, hMsg, hRep⟩ | ⟨mid, hmid, hMsg, hRepOr⟩
  · have hMsgF : (aggStep st m).message_ids = st.message_ids := by rw [F1, hMsg]
    have hRepF : (aggStep st m).reply_ids = st.reply_ids := by rw [F2, hRep]
    have hEdF : (aggStep st m).edited_ids = st.edited_ids := by
      rcases EE with h | ⟨mid2, hmid2, _⟩
      · rw [F3, h, I1]
      · rw [hmidnone] at hmid2; exact Option.noConfusion hmid2
    have hReF : (aggStep st m).react_ids = st.react_ids := by
      rcases XR with h | ⟨mid2, hmid2, _⟩
      · rw [F4, h, E3, I2]
      · rw [hmidnone] at hmid2; exact Option.noConfusion hmid2
    obtain ⟨hMdF, hPhF, hGfF, hOtF⟩ :
        (aggStep st m).media_ids = st.media_ids ∧
        (aggStep st m).photo_ids = st.photo_ids ∧
        (aggStep st m).gif_ids = st.gif_ids ∧
        (aggStep st m).other_media_ids = st.other_media_ids := by
      rcases MX with ⟨_, h1, h2, h3, h4, _⟩ | ⟨cat, _, _, inner⟩
      · exact ⟨by rw [F5, h1, X4, E4, I3], by rw [F6, h2, X5, E5, I4],
               by rw [F7, h3, X6, E6, I5], by rw [F8, h4, X7, E7, I6]⟩
      · rcases inner with ⟨_, h1, h2, h3, h4⟩ | ⟨mid2, hmid2, _⟩
        · exact ⟨by rw [F5, h1, X4, E4, I3], by rw [F6, h2, X5, E5, I4],
                 by rw [F7, h3, X6, E6, I5], by rw [F8, h4, X7, E7, I6]⟩
        · rw [hmidnone] at hmid2
          exact Option.noConfusion hmid2
    refine ⟨?_, ?_, ?_, ?_, ?_, ?_, ?_, ?_, ?_, ?_, ?_, ?_, ?_, ?_, ?_⟩
    · rw [hMsgF]; exact n1
    · rw [hRepF]; exact n2
    · rw [hEdF]; exact n3
    · rw [hReF]; exact n4
    · rw [hMdF]; exact n5
    · rw [hPhF]; exact n6
    · rw [hGfF]; exact n7
    · rw [hOtF]; exact n8
    · rw [hRepF, hMsgF]; exact u1
    · rw [hEdF, hMsgF]; exact u2
    · rw [hReF, hMsgF]; exact u3
    · rw [hMdF, hMsgF]; exact u4
    · rw [hPhF, hMdF]; exact u5
    · rw [hGfF, hMdF]; exact u6
    · rw [hOtF, hMdF]; exact u7
  · have hMsgF : (aggStep st m).message_ids = sadd st.message_ids mid := by
      rw [F1, hMsg]
    have hRepF : (aggStep st m).reply_ids = sadd st.reply_ids mid ∨
        (aggStep st m).reply_ids = st.reply_ids := by
      rcases hRepOr with h | h
      · exact Or.inl (by rw [F2, h])
      · exact Or.inr (by rw [F2, h])
    have hEdF : (aggStep st m).edited_ids = sadd st.edited_ids mid ∨
        (aggStep st m).edited_ids = st.edited_ids := by
      rcases EE with h | ⟨mid2, hmid2, h⟩
      · exact Or.inr (by rw [F3, h, I1])
      · obtain rfl : mid2 = mid := by
          rw [hmid] at hmid2; exact (Option.some.inj hmid2).symm
        exact Or.inl (by rw [F3, h, I1])
    have hReF : (aggStep st m).react_ids = sadd st.react_ids mid ∨
        (aggStep st m).react_ids = st.react_ids := by
      rcases XR with h | ⟨mid2, hmid2, h⟩
      · exact Or.inr (by rw [F4, h, E3, I2])
      · obtain rfl : mid2 = mid := by
          rw [hmid] at hmid2; exact (Option.some.inj hmid2).symm
        exact Or.inl (by rw [F4, h, E3, I2])
    have hMedF :
        ((aggStep st m).media_ids = st.media_ids ∧
         (aggStep st m).photo_ids = st.photo_ids ∧
         (aggStep st m).gif_ids = st.gif_ids ∧
         (aggStep st m).other_media_ids = st.other_media_ids) ∨
        ((aggStep st m).media_ids = sadd st.media_ids mid ∧
         ((aggStep st m).photo_ids = sadd st.photo_ids mid ∨
          (aggStep st m).photo_ids = st.photo_ids) ∧
         ((aggStep st m).gif_ids = sadd st.gif_ids mid ∨
          (aggStep st m).gif_ids = st.gif_ids) ∧
         ((aggStep st m).other_media_ids = sadd st.other_media_ids mid ∨
          (aggStep st m).other_media_ids = st.other_media_ids)) := by
      rcases MX with ⟨_, h1, h2, h3, h4, _⟩ | ⟨cat, hcat, hctr, inner⟩
      · exact Or.inl ⟨by rw [F5, h1, X4, E4, I3], by rw [F6, h2, X5, E5, I4],
                      by rw [F7, h3, X6, E6, I5], by rw [F8, h4, X7, E7, I6]⟩
      · rcases inner with ⟨hmidnone, _⟩ | ⟨mid2, hmid2, hmed, hph, hgf, hot⟩
        · rw [hmid] at hmidnone; exact Option.noConfusion hmidnone
        · obtain rfl : mid2 = mid := by
            rw [hmid] at hmid2; exact (Option.some.inj hmid2).symm
          refine Or.inr ⟨by rw [F5, hmed, X4, E4, I3], ?_, ?_, ?_⟩
          · rcases hph with h | h
            · exact Or.inl (by rw [F6, h, X5, E5, I4])
            · exact Or.inr (by rw [F6, h, X5, E5, I4])
          · rcases hgf with h | h
            · exact Or.inl (by rw [F7, h, X6, E6, I5])
            · exact Or.inr (by rw [F7, h, X6, E6, I5])
          · rcases hot with h | h
            · exact Or.inl (by rw [F8, h, X7, E7, I6])
            · exact Or.inr (by rw [F8, h, X7, E7, I6])
    refine ⟨?_, ?_, ?_, ?_, ?_, ?_, ?_, ?_, ?_, ?_, ?_, ?_, ?_, ?_, ?_⟩
    · rw [hMsgF]; exact sadd_nodup _ _ n1
    · rcases hRepF with h | h
      · rw [h]; exact sadd_nodup _ _ n2
      · rw [h]; exact n2
    · rcases hEdF with h | h
      · rw [h]; exact sadd_nodup _ _ n3
      · rw [h]; exact n3
    · rcases hReF with h | h
      · rw [h]; exact sadd_nodup _ _ n4
      · rw [h]; exact n4
    · rcases hMedF with ⟨h1, _, _, _⟩ | ⟨h1, _, _, _⟩
      · rw [h1]; exact n5
      · rw [h1]; exact sadd_nodup _ _ n5
    · rcases hMedF with ⟨_, h2, _, _⟩ | ⟨_, hph, _, _⟩
      · rw [h2]; exact n6
      · rcases hph with h | h
        · rw [h]; exact sadd_nodup _ _ n6
        · rw [h]; exact n6
    · rcases hMedF with ⟨_, _, h3, _⟩ | ⟨_, _, hgf, _⟩
      · rw [h3]; exact n7
      · rcases hgf with h | h
        · rw [h]; exact sadd_nodup _ _ n7
        · rw [h]; exact n7
    · rcases hMedF with ⟨_, _, _, h4⟩ | ⟨_, _, _, hot⟩
      · rw [h4]; exact n8
      · rcases hot with h | h
        · rw [h]; exact sadd_nodup _ _ n8
        · rw [h]; exact n8
    · rw [hMsgF]
      rcases hRepF with h | h
      · rw [h]; exact sadd_sub_sadd _ _ _ u1
      · rw [h]; exact sub_sadd _ _ _ u1
    · rw [hMsgF]
      rcases hEdF with h | h
      · rw [h]; exact sadd_sub_sadd _ _ _ u2
      · rw [h]; exact sub_sadd _ _ _ u2
    · rw [hMsgF]
      rcases hReF with h | h
      · rw [h]; exact sadd_sub_sadd _ _ _ u3
      · rw [h]; exact sub_sadd _ _ _ u3
    · rw [hMsgF]
      rcases hMedF with ⟨h1, _, _, _⟩ | ⟨h1, _, _, _⟩
      · rw [h1]; exact sub_sadd _ _ _ u4
      · rw [h1]; exact sadd_sub_sadd _ _ _ u4
    · rcases hMedF with ⟨h1, h2, _, _⟩ | ⟨h1, hph, _, _⟩
      · rw [h2, h1]; exact u5
      · rw [h1]
        rcases hph with h | h
        · rw [h]; exact sadd_sub_sadd _ _ _ u5
        · rw [h]; exact sub_sadd _ _ _ u5
    · rcases hMedF with ⟨h1, _, h3, _⟩ | ⟨h1, _, hgf, _⟩
      · rw [h3, h1]; exact u6
      · rw [h1]
        rcases hgf with h | h
        · rw [h]; exact sadd_sub_sadd _ _ _ u6
        · rw [h]; exact sub_sadd _ _ _ u6
    · rcases hMedF with ⟨h1, _, _, h4⟩ | ⟨h1, _, _, hot⟩
      · rw [h4, h1]; exact u7
      · rw [h1]
        rcases hot with h | h
        · rw [h]; exact sadd_sub_sadd _ _ _ u7
        · rw [h]; exact sub_sadd _ _ _ u7

/-- The guarded fold of the first pass from an arbitrary start state. -/
def aggFold (st : AggState) (msgs : List RawMsg) : AggState :=
  msgs.foldl (fun st m => if isMessage m then aggStep st m else st) st

/-- The first pass is the guarded fold from the empty state. -/
theorem aggPass1_eq_aggFold (msgs : List RawMsg) : aggPass1 msgs = aggFold {} msgs :=
  rfl

/-- Peeling one record off the guarded fold. -/
theorem aggFold_cons (st : AggState) (m : RawMsg) (t : List RawMsg) :
    aggFold st (m :: t) = aggFold (if isMessage m then aggStep st m else st) t :=
  rfl

/-- The integer id of a record that counts as a message (service records and
id-less messages contribute nothing). -/
def msgMid (m : RawMsg) : Option Int :=
  if isMessage m then m.mid else none

/-- The guarded fold preserves both invariants when every media-bearing
message has an integer id, the message ids of the input are pairwise
distinct, and none of them is already recorded in the start state. -/
theorem aggFold_c4 (msgs : List RawMsg) :
    ∀ st : AggState, C4Inv st → MCInv st →
    (∀ m ∈ msgs, isMessage m = true → (metaOf m).media_cat ≠ none → m.mid ≠ none) →
    (msgs.filterMap msgMid).Nodup →
    (∀ m ∈ msgs, ∀ i, msgMid m = some i → i ∉ st.message_ids) →
    C4Inv (aggFold st msgs) ∧ MCInv (aggFold st msgs) := by
  induction msgs with
  | nil => exact fun st hinv hmc _ _ _ => ⟨hinv, hmc⟩
  | cons m t ih =>
    intro st hinv hmc hmedia hnd hfr
    rw [aggFold_cons]
    by_cases hm : isMessage m = true
    · rw [if_pos hm]
      have hfr0 : ∀ i, m.mid = some i → i ∉ st.message_ids := by
        intro i hi
        refine hfr m (List.mem_cons_self m t) i ?_
        simp [msgMid, hm, hi]
      obtain ⟨hinv2, hmc2, hsub⟩ :=
        aggStep_c4 st m hinv hmc (hmedia m (List.mem_cons_self m t) hm) hfr0
      have hnd2 : (t.filterMap msgMid).Nodup := by
        cases hmm : msgMid m with
        | none => simp only [List.filterMap_cons, hmm] at hnd; exact hnd
        | some i =>
          simp only [List.filterMap_cons, hmm] at hnd
          exact (List.nodup_cons.mp hnd).2
      have hfr2 : ∀ m2 ∈ t, ∀ i, msgMid m2 = some i →
          i ∉ (aggStep st m).message_ids := by
        intro m2 hm2 i hi hmem
        rcases hsub i hmem with hin | hmidm
        · exact hfr m2 (List.mem_cons_of_mem m hm2) i hi hin
        · have hmm : msgMid m = some i := by simp [msgMid, hm, hmidm]
          have hmemt : i ∈ t.filterMap msgMid :=
            List.mem_filterMap.mpr ⟨m2, hm2, hi⟩
          have hcons : ((m :: t).filterMap msgMid).Nodup := hnd
          simp only [List.filterMap_cons, hmm] at hcons
          exact (List.nodup_cons.mp hcons).1 hmemt
      exact ih (aggStep st m) hinv2 hmc2
        (fun m2 hm2 => hmedia m2 (List.mem_cons_of_mem m hm2)) hnd2 hfr2
    · rw [if_neg hm]
      have hmm : msgMid m = none := by simp [msgMid, hm]
      have hnd2 : (t.filterMap msgMid).Nodup := by
        simp only [List.filterMap_cons, hmm] at hnd
        exact hnd
      exact ih st hinv hmc
        (fun m2 hm2 => hmedia m2 (List.mem_cons_of_mem m hm2)) hnd2
        (fun m2 hm2 => hfr m2 (List.mem_cons_of_mem m hm2))

/-- The empty accumulator satisfies the id-set invariant. -/
theorem c4inv_empty : C4Inv {} := by
  unfold C4Inv
  refine ⟨List.nodup_nil, List.nodup_nil, List.nodup_nil, List.nodup_nil,
    List.nodup_nil, List.nodup_nil, List.nodup_nil, List.nodup_nil,
    ?_, ?_, ?_, ?_, ?_, ?_, ?_⟩ <;> exact List.Subset.refl _

/-- The guarded fold preserves the id-set invariant unconditionally. -/
theorem aggFold_c4inv (msgs : List RawMsg) :
    ∀ st : AggState, C4Inv st → C4Inv (aggFold st msgs) := by
  induction msgs with
  | nil => exact fun st h => h
  | cons m t ih =>
    intro st hinv
    rw [aggFold_cons]
    by_cases hm : isMessage m = true
    · rw [if_pos hm]
      exact ih _ (aggStep_c4inv st m hinv)
    · rw [if_neg hm]
      exact ih st hinv

/-- The id-set invariant holds after the first pass, for every input. -/
theorem aggPass1_c4inv (msgs : List RawMsg) : C4Inv (aggPass1 msgs) := by
  rw [aggPass1_eq_aggFold]
  exact aggFold_c4inv msgs {} c4inv_empty

/-- The empty accumulator satisfies the counter bound. -/
theorem mcinv_empty : MCInv {} := by
  unfold MCInv
  intro p hp
  exact absurd hp (List.not_mem_nil p)

/-- Both invariants hold after the first pass under the id hypotheses. -/
theorem aggPass1_c4 (msgs : List RawMsg)
    (hmedia : ∀ m ∈ msgs, isMessage m = true →
      (metaOf m).media_cat ≠ none → m.mid ≠ none)
    (hnd : (msgs.filterMap msgMid).Nodup) :
    C4Inv (aggPass1 msgs) ∧ MCInv (aggPass1 msgs) := by
  rw [aggPass1_eq_aggFold]
  exact aggFold_c4 msgs {} c4inv_empty mcinv_empty hmedia hnd
    (fun m _ i _ => List.not_mem_nil i)

/-- Claim C4 (amended): the `pct` helper is `part / total * 100` rounded
half-to-even to two decimals for a nonzero total and exactly 0 for a zero
total; the six summary percentages of the aggregate output always lie
between 0 and 100 (stored here in integer hundredths between 0 and 10000),
unconditionally for every input; the per-category `media_shares`
percentages satisfy the same bound under the hypothesis that every
media-bearing message has an integer id and that the message ids are
pairwise distinct.  Without that hypothesis the media shares can exceed
100 percent, because the category counter counts media messages without an
integer id while its denominator counts only recorded media ids. -/
theorem aggregate_percentages_bounded (msgs : List RawMsg) :
    (∀ n tot : Nat,
      pct n tot =
        if tot = 0 then 0
        else (roundHalfEven ((n : ℚ) / (tot : ℚ) * 100 * 100) : ℚ) / 100) ∧
    (0 ≤ (build_aggregates_json msgs).replies_pct100 ∧
      (build_aggregates_json msgs).replies_pct100 ≤ 10000) ∧
    (0 ≤ (build_aggregates_json msgs).reactions_msgs_pct100 ∧
      (build_aggregates_json msgs).reactions_msgs_pct100 ≤ 10000) ∧
    (0 ≤ (build_aggregates_json msgs).media_pct100 ∧
      (build_aggregates_json msgs).media_pct100 ≤ 10000) ∧
    (0 ≤ (build_aggregates_json msgs).photo_pct100 ∧
      (build_aggregates_json msgs).photo_pct100 ≤ 10000) ∧
    (0 ≤ (build_aggregates_json msgs).gif_pct100 ∧
      (build_aggregates_json msgs).gif_pct100 ≤ 10000) ∧
    (0 ≤ (build_aggregates_json msgs).other_media_pct100 ∧
      (build_aggregates_json msgs).other_media_pct100 ≤ 10000) ∧
    ((∀ m ∈ msgs, isMessage m = true →
        (metaOf m).media_cat ≠ none → m.mid ≠ none) →
      (msgs.filterMap msgMid).Nodup →
      ∀ e ∈ (build_aggregates_json msgs).media_shares,
        0 ≤ e.2.2 ∧ e.2.2 ≤ 10000) := by
  have hinv := aggPass1_c4inv msgs
  unfold C4Inv at hinv
  obtain ⟨n1, n2, n3, n4, n5, n6, n7, n8, u1, u2, u3, u4, u5, u6, u7⟩ := hinv
  have hrep : (build_aggregates_json msgs).replies_pct100 =
      pct100 (aggPass1 msgs).reply_ids.length (aggPass1 msgs).message_ids.length :=
    rfl
  have hrea : (build_aggregates_json msgs).reactions_msgs_pct100 =
      pct100 (aggPass1 msgs).react_ids.length (aggPass1 msgs).message_ids.length :=
    rfl
  have hmed : (build_aggregates_json msgs).media_pct100 =
      pct100 (aggPass1 msgs).media_ids.length (aggPass1 msgs).message_ids.length :=
    rfl
  have hpho : (build_aggregates_json msgs).photo_pct100 =
      pct100 (aggPass1 msgs).photo_ids.length (aggPass1 msgs).media_ids.length :=
    rfl
  have hgif : (build_aggregates_json msgs).gif_pct100 =
      pct100 (aggPass1 msgs).gif_ids.length (aggPass1 msgs).media_ids.length :=
    rfl
  have hoth : (build_aggregates_json msgs).other_media_pct100 =
      pct100 (aggPass1 msgs).other_media_ids.length
        (aggPass1 msgs).media_ids.length :=
    rfl
  have hms : (build_aggregates_json msgs).media_shares =
      (aggPass1 msgs).media_counter.map
        (fun p => (p.1, p.2, pct100 p.2 (aggPass1 msgs).media_ids.length)) :=
    rfl
  refine ⟨?_, ?_, ?_, ?_, ?_, ?_, ?_, ?_⟩
  · intro n tot
    by_cases h : tot = 0
    · rw [if_pos h]
      unfold pct pct100
      rw [if_pos h]
      norm_num
    · rw [if_neg h]
      unfold pct
      rw [pct100_eq_roundHalfEven n tot (Nat.pos_of_ne_zero h)]
  · rw [hrep]
    exact ⟨pct100_nonneg _ _, pct100_le _ _ (length_le_of_nodup_subset _ _ n2 u1)⟩
  · rw [hrea]
    exact ⟨pct100_nonneg _ _, pct100_le _ _ (length_le_of_nodup_subset _ _ n4 u3)⟩
  · rw [hmed]
    exact ⟨pct100_nonneg _ _, pct100_le _ _ (length_le_of_nodup_subset _ _ n5 u4)⟩
  · rw [hpho]
    exact ⟨pct100_nonneg _ _, pct100_le _ _ (length_le_of_nodup_subset _ _ n6 u5)⟩
  · rw [hgif]
    exact ⟨pct100_nonneg _ _, pct100_le _ _ (length_le_of_nodup_subset _ _ n7 u6)⟩
  · rw [hoth]
    exact ⟨pct100_nonneg _ _, pct100_le _ _ (length_le_of_nodup_subset _ _ n8 u7)⟩
  · intro hmedia hnd e he
    obtain ⟨_, hmc⟩ := aggPass1_c4 msgs hmedia hnd
    unfold MCInv at hmc
    rw [hms] at he
    obtain ⟨p, hp, rfl⟩ := List.mem_map.mp he
    exact ⟨pct100_nonneg _ _, pct100_le _ _ (hmc p hp)⟩

/-- A photo message with an integer id. -/
def mMedia1 : RawMsg :=
  { mtype := some "message", mid := some 1,
    metaNorm := some ⟨none, none, none, some "photo"⟩ }

/-- A photo message without an integer id: it bumps the category counter but
never enters the media id set. -/
def mMedia2 : RawMsg :=
  { mtype := some "message",
    metaNorm := some ⟨none, none, none, some "photo"⟩ }

/-- Claim C4 counterexample: one photo message with an integer id and one
without give a photo share of 200.00 percent (20000 hundredths) — the
counter counts both messages while the media denominator counts the single
recorded id, so a computed percentage exceeds 100. -/
theorem media_share_pct_over_100_cex :
    (build_aggregates_json [mMedia1, mMedia2]).media_shares =
      [("photo", 2, 20000)] ∧
    ¬ ((20000 : Int) ≤ 10000) := by
  exact ⟨by decide, by decide⟩

/-- Witness: on a single photo message with id 1 the id-integrity
hypotheses hold, and the media share percentage is within bounds. -/
theorem aggregate_percentages_bounded_witness :
    (∀ m ∈ [mMedia1], isMessage m = true →
      (metaOf m).media_cat ≠ none → m.mid ≠ none) ∧
    (([mMedia1].filterMap msgMid).Nodup) ∧
    (∀ e ∈ (build_aggregates_json [mMedia1]).media_shares,
      0 ≤ e.2.2 ∧ e.2.2 ≤ 10000) :=
  ⟨by decide, by decide,
   (aggregate_percentages_bounded [mMedia1]).2.2.2.2.2.2.2 (by decide) (by decide)⟩

/-! ## Normalizer frame and failure policy (claims C7, C8, C9) -/

/-- Lookup of the key just written. -/
theorem jget_jset_same (l : List (String × JVal)) (k : String) (v : JVal) :
    jget (jset l k v) k = some v := by
  unfold jget jset
  rw [alookup_aset]
  simp

/-- Lookup of any other key is unaffected by a write. -/
theorem jget_jset_other (l : List (String × JVal)) (k : String) (v : JVal)
    (z : String) (h : z ≠ k) : jget (jset l k v) z = jget l z := by
  unfold jget jset
  rw [alookup_aset]
  rw [if_neg (fun hk => h hk.symm)]

/-- A successful `mapM` over `Except` maps each element to its paired
result. -/
theorem mapM_ok_forall {α β : Type} (f : α → Except String β) :
    ∀ (xs : List α) (ys : List β), xs.mapM f = Except.ok ys →
      ys.length = xs.length ∧ ∀ p ∈ xs.zip ys, f p.1 = Except.ok p.2 := by
  intro xs
  induction xs with
  | nil =>
    intro ys h
    simp only [List.mapM_nil] at h
    have : ([] : List β) = ys := by
      have := h
      simpa [pure, Except.pure] using this
    subst this
    exact ⟨rfl, fun p hp => absurd hp (List.not_mem_nil p)⟩
  | cons x t ih =>
    intro ys h
    rw [List.mapM_cons] at h
    cases hfx : f x with
    | error e =>
      rw [hfx] at h
      simp [Bind.bind, Except.bind] at h
    | ok b =>
      rw [hfx] at h
      cases hmt : t.mapM f with
      | error e =>
        rw [hmt] at h
        simp [Bind.bind, Except.bind, pure, Except.pure] at h
      | ok bs =>
        rw [hmt] at h
        simp only [Bind.bind, Except.bind, pure, Except.pure] at h
        have hys : b :: bs = ys := Except.ok.inj h
        subst hys
        obtain ⟨hlen, hall⟩ := ih bs hmt
        refine ⟨by simp [hlen], ?_⟩
        intro p hp
        rcases List.mem_cons.mp hp with rfl | hp2
        · exact hfx
        · exact hall p hp2

/-- `mapM` over `Except` succeeds exactly when every element succeeds. -/
theorem mapM_ok_iff {α β : Type} (f : α → Except String β) :
    ∀ xs : List α, (∃ ys, xs.mapM f = .ok ys) ↔ (∀ x ∈ xs, ∃ y, f x = .ok y) := by
  intro xs
  induction xs with
  | nil =>
    constructor
    · intro _ x hx
      exact absurd hx (List.not_mem_nil x)
    · intro _
      exact ⟨[], by simp [List.mapM_nil]; rfl⟩
  | cons a t ih =>
    constructor
    · rintro ⟨ys, hys⟩ x hx
      rw [List.mapM_cons] at hys
      cases hfa : f a with
      | error e => rw [hfa] at hys; simp [Bind.bind, Except.bind] at hys
      | ok b =>
        rw [hfa] at hys
        cases hmt : t.mapM f with
        | error e =>
          rw [hmt] at hys
          simp [Bind.bind, Except.bind] at hys
        | ok bs =>
          rcases List.mem_cons.mp hx with rfl | hx2
          · exact ⟨b, hfa⟩
          · exact (ih.mp ⟨bs, hmt⟩) x hx2
    · intro hall
      obtain ⟨b, hfa⟩ := hall a (List.mem_cons_self a t)
      obtain ⟨bs, hmt⟩ := ih.mpr (fun x hx => hall x (List.mem_cons_of_mem a hx))
      exact ⟨b :: bs, by rw [List.mapM_cons, hfa, hmt]; rfl⟩

/-- A successfully normalized object message is the original object with the
`meta_norm` key set to an object whose first entry is the computed
`date_norm`, and the changed flag records whether that `date_norm` is
non-null. -/
theorem normalizeMsg_shape (shift : Int) (kvs : List (String × JVal))
    (r : JVal × Bool) (h : normalizeMsg shift (.obj kvs) = .ok r) :
    ∃ dn ndtail,
      apply_shift_and_format (dtNaiveOf kvs) shift = .ok dn ∧
      r.2 = dn.isSome ∧
      r.1 = .obj (jset kvs "meta_norm"
        (.obj (("date_norm", (dn.map JVal.str).getD .null) :: ndtail))) := by
  unfold normalizeMsg at h
  dsimp only at h
  cases hd : apply_shift_and_format (dtNaiveOf kvs) shift with
  | error e =>
    rw [hd] at h
    simp [Bind.bind, Except.bind] at h
  | ok dn =>
    rw [hd] at h
    simp only [Bind.bind, Except.bind] at h
    by_cases he : (jhas kvs "edited" || jhas kvs "edited_unixtime") = true
    · rw [if_pos he] at h
      cases hedt : edtNaiveOf kvs with
      | none =>
        rw [hedt] at h
        dsimp only at h
        simp only [pure, Except.pure] at h
        obtain rfl := Except.ok.inj h
        exact ⟨dn, _, rfl, rfl, rfl⟩
      | some d =>
        rw [hedt] at h
        dsimp only at h
        cases happ : apply_shift_and_format (some d) shift with
        | error e =>
          rw [happ] at h
          simp [Bind.bind, Except.bind] at h
        | ok e =>
          rw [happ] at h
          simp only [Bind.bind, Except.bind, pure, Except.pure] at h
          obtain rfl := Except.ok.inj h
          exact ⟨dn, _, rfl, rfl, rfl⟩
    · rw [if_neg he] at h
      simp only [pure, Except.pure] at h
      obtain rfl := Except.ok.inj h
      exact ⟨dn, _, rfl, rfl, rfl⟩

/-- The `by_normalize` entry appended to the `meta` list (lines 104-110 of
the normalizer). -/
def byNormalizeEntry (shift : Int) (changed : Int) : JVal :=
  .obj [("by_normalize", .obj
    [("applied_shift_hours", .int shift),
     ("note", .str ("Созданы поля \x27meta_norm\x27 с примененным сдвигом " ++
       (if 0 ≤ shift then "+" ++ toString shift else toString shift))),
     ("messages_with_date_norm", .int changed)])]

/-- Claim C7 (amended): on every successful run the normalizer preserves all
top-level keys except `messages` and `meta`, transforms each message by
attaching (or overwriting) only its `meta_norm` key while every other
message key keeps its value, and replaces `meta` by the old `meta` list (a
fresh list when `meta` was missing or not a list) extended with exactly one
`by_normalize` entry whose `messages_with_date_norm` counts the messages
whose `date_norm` came out non-null.  Unlike the stated claim, an existing
`meta_norm` message key and a non-list `meta` document key ARE
overwritten. -/
theorem normalize_json_frame (data : List (String × JVal)) (shift : Int)
    (out : List (String × JVal)) (h : normalize_json data shift = .ok out) :
    (∀ k, k ≠ "messages" → k ≠ "meta" → jget out k = jget data k) ∧
    ∃ msgs results,
      jget data "messages" = some (.arr msgs) ∧
      results.length = msgs.length ∧
      jget out "messages" = some (.arr (results.map Prod.fst)) ∧
      (∀ p ∈ msgs.zip results,
        normalizeMsg shift p.1 = .ok p.2 ∧
        ∀ kvs, p.1 = .obj kvs →
          ∃ nd, p.2.1 = .obj (jset kvs "meta_norm" (.obj nd)) ∧
            jget (jset kvs "meta_norm" (.obj nd)) "meta_norm" = some (.obj nd) ∧
            (∀ k, k ≠ "meta_norm" →
              jget (jset kvs "meta_norm" (.obj nd)) k = jget kvs k)) ∧
      jget out "meta" = some (.arr (
        (match jget data "meta" with
         | some (.arr xs) => xs
         | _ => []) ++
        [byNormalizeEntry shift ((results.filter (fun q => q.2)).length : Int)])) := by
  unfold normalize_json at h
  cases hms : jget data "messages" with
  | none => rw [hms] at h; exact Except.noConfusion h
  | some v =>
    rw [hms] at h
    cases v with
    | arr msgs =>
      dsimp only at h
      cases hmap : msgs.mapM (normalizeMsg shift) with
      | error e =>
        rw [hmap] at h
        simp [Bind.bind, Except.bind] at h
      | ok results =>
        rw [hmap] at h
        simp only [Bind.bind, Except.bind, pure, Except.pure] at h
        obtain rfl := (Except.ok.inj h).symm
        obtain ⟨hlen, hall⟩ := mapM_ok_forall (normalizeMsg shift) msgs results hmap
        refine ⟨?_, msgs, results, rfl, hlen, ?_, ?_, ?_⟩
        · intro k hk1 hk2
          rw [jget_jset_other _ _ _ _ hk2, jget_jset_other _ _ _ _ hk1]
        · rw [jget_jset_other _ _ _ _ (by decide), jget_jset_same]
        · intro p hp
          refine ⟨hall p hp, ?_⟩
          intro kvs hkvs
          have hmk : normalizeMsg shift (.obj kvs) = .ok p.2 := by
            rw [← hkvs]; exact hall p hp
          obtain ⟨dn, ndtail, _, _, hshape⟩ := normalizeMsg_shape shift kvs p.2 hmk
          refine ⟨_, hshape, jget_jset_same _ _ _, ?_⟩
          intro k hk
          exact jget_jset_other _ _ _ _ hk
        · rw [jget_jset_same]
          rw [jget_jset_other _ _ _ _ (by decide)]
          rfl
    | null => exact Except.noConfusion h
    | bool b => exact Except.noConfusion h
    | int n => exact Except.noConfusion h
    | str s => exact Except.noConfusion h
    | obj kvs => exact Except.noConfusion h

/-- The by-normalize note for shift 0. -/
def c7note : String :=
  "Созданы поля \x27meta_norm\x27 с примененным сдвигом +0"

/-- The by-normalize entry for shift 0 and no dated messages. -/
def c7entry : JVal :=
  .obj [("by_normalize", .obj
    [("applied_shift_hours", .int 0), ("note", .str c7note),
     ("messages_with_date_norm", .int 0)])]

/-- A message that already carries a `meta_norm` key. -/
def c7msg : List (String × JVal) := [("meta_norm", .int 5)]

/-- A document with a pre-existing `meta_norm` message key and a non-list
`meta` document key. -/
def c7doc : List (String × JVal) :=
  [("messages", .arr [.obj c7msg]), ("meta", .int 7)]

/-- The meta-norm object for a message with no date, text or media. -/
def c7newmeta : JVal :=
  .obj [("date_norm", .null), ("text_plain", .str ""), ("media_cat", .null)]

/-- Claim C7 counterexample: the normalizer is not additive — an existing
`meta_norm` field (value 5) is overwritten by the fresh meta-norm object,
and a non-list top-level `meta` field (value 7) is replaced by a fresh
list. -/
theorem normalize_json_overwrites_cex :
    normalize_json c7doc 0 =
      .ok [("messages", .arr [.obj [("meta_norm", c7newmeta)]]),
           ("meta", .arr [c7entry])] ∧
    jget c7doc "meta" = some (.int 7) ∧
    jget c7msg "meta_norm" = some (.int 5) ∧
    c7newmeta ≠ .int 5 ∧
    JVal.arr [c7entry] ≠ .int 7 :=
  ⟨rfl, rfl, rfl, fun h => JVal.noConfusion h, fun h => JVal.noConfusion h⟩

/-- A two-key document whose normalization succeeds. -/
def c7wdoc : List (String × JVal) :=
  [("messages", .arr [.obj []]), ("x", .int 1)]

/-- Its normalized output. -/
def c7wout : List (String × JVal) :=
  [("messages", .arr [.obj [("meta_norm", c7newmeta)]]), ("x", .int 1),
   ("meta", .arr [c7entry])]

/-- Witness: on a concrete successful run the untouched top-level key `x`
keeps its value. -/
theorem normalize_json_frame_witness :
    normalize_json c7wdoc 0 = .ok c7wout ∧ jget c7wout "x" = jget c7wdoc "x" :=
  ⟨rfl, (normalize_json_frame c7wdoc 0 c7wout rfl).1 "x" (by decide) (by decide)⟩

/-- `apply_shift_and_format` can only fail with an `OverflowError` (the
shifted datetime left years 1..9999) or, when the shift magnitude reaches 24
hours, a `ValueError` from the timezone construction. -/
theorem apply_shift_error (d : Option DT) (shift : Int) (e : String)
    (h : apply_shift_and_format d shift = .error e) :
    e = "OverflowError" ∨ (e = "ValueError" ∧ (shift ≤ -24 ∨ 24 ≤ shift)) := by
  unfold apply_shift_and_format at h
  cases d with
  | none => exact Except.noConfusion h
  | some dt =>
    dsimp only at h
    split at h
    · split at h
      · exact Except.noConfusion h
      · next hrange =>
        refine Or.inr ⟨(Except.error.inj h).symm, ?_⟩
        have hr : ¬ (-24 < shift ∧ shift < 24) := by simpa using hrange
        omega
    · exact Or.inl (Except.error.inj h).symm

/-- An object message can only fail to normalize with an `OverflowError`
(shifted timestamp left years 1..9999) or, when the shift magnitude reaches
24 hours, a `ValueError` from the timezone construction. -/
theorem normalizeMsg_error (shift : Int) (kvs : List (String × JVal)) (e : String)
    (h : normalizeMsg shift (.obj kvs) = .error e) :
    e = "OverflowError" ∨ (e = "ValueError" ∧ (shift ≤ -24 ∨ 24 ≤ shift)) := by
  unfold normalizeMsg at h
  dsimp only at h
  cases hd : apply_shift_and_format (dtNaiveOf kvs) shift with
  | error e0 =>
    rw [hd] at h
    simp only [Bind.bind, Except.bind] at h
    rw [← Except.error.inj h]
    exact apply_shift_error _ _ _ hd
  | ok dn =>
    rw [hd] at h
    simp only [Bind.bind, Except.bind] at h
    by_cases hb : (jhas kvs "edited" || jhas kvs "edited_unixtime") = true
    · rw [if_pos hb] at h
      cases hedt : edtNaiveOf kvs with
      | none =>
        rw [hedt] at h
        dsimp only at h
        simp only [pure, Except.pure] at h
        exact Except.noConfusion h
      | some d =>
        rw [hedt] at h
        dsimp only at h
        cases happ : apply_shift_and_format (some d) shift with
        | error e1 =>
          rw [happ] at h
          simp only [Bind.bind, Except.bind] at h
          rw [← Except.error.inj h]
          exact apply_shift_error _ _ _ happ
        | ok v =>
          rw [happ] at h
          simp only [Bind.bind, Except.bind, pure, Except.pure] at h
          exact Except.noConfusion h
    · rw [if_neg hb] at h
      simp only [pure, Except.pure] at h
      exact Except.noConfusion h

/-- A message with no parsable date and no parsable edit timestamp still
normalizes, with a false changed flag (its `date_norm` is null). -/
theorem normalizeMsg_degrade (shift : Int) (kvs : List (String × JVal))
    (hdt : dtNaiveOf kvs = none) (hedt : edtNaiveOf kvs = none) :
    ∃ r, normalizeMsg shift (.obj kvs) = .ok r ∧ r.2 = false := by
  unfold normalizeMsg
  dsimp only
  rw [hdt]
  dsimp only [apply_shift_and_format, Bind.bind, Except.bind]
  rw [hedt]
  dsimp only
  rw [ite_self]
  exact ⟨_, rfl, rfl⟩

/-- Claim C9 (amended): a document without a `messages` list fails with
`ValueError`; with a `messages` list, the run succeeds exactly when every
entry normalizes; a non-object entry always fails (with `AttributeError`),
and an object entry can fail only through a timestamp `OverflowError` after
shifting or, when the shift magnitude is at least 24 hours, a `ValueError`
from the timezone construction — for a shift strictly inside ±24 hours an
object entry can fail only with `OverflowError`.  In particular a message
whose timestamps merely fail to parse never aborts the run: it degrades to
a null `date_norm` and is retained. -/
theorem normalize_json_failure_policy (data : List (String × JVal)) (shift : Int) :
    ((∀ msgs, jget data "messages" ≠ some (.arr msgs)) →
      normalize_json data shift = .error "ValueError") ∧
    (∀ msgs, jget data "messages" = some (.arr msgs) →
      ((∃ out, normalize_json data shift = .ok out) ↔
        ∀ m ∈ msgs, ∃ r, normalizeMsg shift m = .ok r)) ∧
    (∀ m : JVal, (∀ kvs, m ≠ .obj kvs) →
      normalizeMsg shift m = .error "AttributeError") ∧
    (∀ kvs e, normalizeMsg shift (.obj kvs) = .error e →
      e = "OverflowError" ∨ (e = "ValueError" ∧ (shift ≤ -24 ∨ 24 ≤ shift))) ∧
    (-24 < shift → shift < 24 →
      ∀ kvs e, normalizeMsg shift (.obj kvs) = .error e → e = "OverflowError") ∧
    (∀ kvs, dtNaiveOf kvs = none → edtNaiveOf kvs = none →
      ∃ r, normalizeMsg shift (.obj kvs) = .ok r ∧ r.2 = false) := by
  refine ⟨?_, ?_, ?_, ?_, ?_, ?_⟩
  · intro hno
    unfold normalize_json
    cases hms : jget data "messages" with
    | none => rfl
    | some v =>
      cases v with
      | arr msgs => exact absurd hms (hno msgs)
      | null => rfl
      | bool b => rfl
      | int n => rfl
      | str s => rfl
      | obj kvs => rfl
  · intro msgs hms
    have hiff0 : (∃ out, normalize_json data shift = .ok out) ↔
        (∃ rs, msgs.mapM (normalizeMsg shift) = .ok rs) := by
      unfold normalize_json
      rw [hms]
      dsimp only
      cases hmap : msgs.mapM (normalizeMsg shift) with
      | error e =>
        simp only [Bind.bind, Except.bind]
        constructor
        · rintro ⟨out, hout⟩
          exact Except.noConfusion hout
        · rintro ⟨rs, hrs⟩
          exact Except.noConfusion hrs
      | ok rs =>
        simp only [Bind.bind, Except.bind]
        constructor
        · intro _
          exact ⟨rs, rfl⟩
        · intro _
          exact ⟨_, rfl⟩
    rw [hiff0]
    exact mapM_ok_iff (normalizeMsg shift) msgs
  · intro m hm
    cases m with
    | obj kvs => exact absurd rfl (hm kvs)
    | null => rfl
    | bool b => rfl
    | int n => rfl
    | str s => rfl
    | arr xs => rfl
  · exact fun kvs e h => normalizeMsg_error shift kvs e h
  · intro h1 h2 kvs e he
    rcases normalizeMsg_error shift kvs e he with h | ⟨_, hr⟩
    · exact h
    · exfalso
      omega
  · exact fun kvs h1 h2 => normalizeMsg_degrade shift kvs h1 h2

/-- A document whose `messages` array contains a non-object entry. -/
def c9msgs : List (String × JVal) := [("messages", .arr [.int 5])]

/-- Claim C9 counterexample: the run aborts (with `AttributeError`) even
though the document does contain a `messages` array — a single malformed
(non-object) message is fatal, so missing `messages` is not the only fatal
condition. -/
theorem normalize_json_nonobject_fatal_cex :
    jget c9msgs "messages" = some (.arr [.int 5]) ∧
    normalize_json c9msgs 0 = .error "AttributeError" := ⟨rfl, rfl⟩

/-- A document without a `messages` key. -/
def c9wdoc : List (String × JVal) := [("x", .int 1)]

/-- Witness: the document without `messages` fails with `ValueError`. -/
theorem normalize_json_failure_policy_witness :
    normalize_json c9wdoc 0 = .error "ValueError" :=
  (normalize_json_failure_policy c9wdoc 0).1 (fun _ h => Option.noConfusion h)

/-- The ISO-string candidate of a timestamp key, as the spec describes the
resolution inputs. -/
def isoCand (kvs : List (String × JVal)) (key : String) : Option DT :=
  match jget kvs key with
  | some (.str s) => parse_iso_dt_naive s
  | _ => none

/-- The epoch-seconds candidate of a timestamp key. -/
def unixCand (kvs : List (String × JVal)) (key : String) : Option DT :=
  match jget kvs key with
  | some (.str s) => dt_from_unixtime_str s
  | _ => none

/-- The resolution order the specification describes for `date_norm`: prefer
the ISO `date` string, fall back to the epoch-seconds `date_unixtime`
string. -/
def dateResolutionSpec (kvs : List (String × JVal)) : Option DT :=
  match isoCand kvs "date" with
  | some d => some d
  | none => unixCand kvs "date_unixtime"

/-- The resolution order the specification claims for `edited_norm`: prefer
the ISO `edited` string, fall back to the epoch-seconds `edited_unixtime`
string. -/
def editedResolutionSpec (kvs : List (String × JVal)) : Option DT :=
  match isoCand kvs "edited" with
  | some d => some d
  | none => unixCand kvs "edited_unixtime"

/-- Claim C8 (amended): `date_norm` resolves exactly as the spec says —
ISO `date` first, `date_unixtime` as the fallback — but `edited_norm`
resolves in the OPPOSITE order, `edited_unixtime` first and the ISO
`edited` string as the fallback; `edited_norm` is attached only when an
edit marker key exists, and a message whose timestamps fail to parse is
retained with a null `date_norm`. -/
theorem timestamp_resolution_order (kvs : List (String × JVal)) (shift : Int) :
    dtNaiveOf kvs = dateResolutionSpec kvs ∧
    (edtNaiveOf kvs =
      match unixCand kvs "edited_unixtime" with
      | some d => some d
      | none => isoCand kvs "edited") ∧
    ((jhas kvs "edited" || jhas kvs "edited_unixtime") = false →
      ∀ r, normalizeMsg shift (.obj kvs) = .ok r →
        ∃ nd, r.1 = .obj (jset kvs "meta_norm" (.obj nd)) ∧
          jget nd "edited_norm" = none) ∧
    (dtNaiveOf kvs = none → edtNaiveOf kvs = none →
      ∃ r, normalizeMsg shift (.obj kvs) = .ok r ∧ r.2 = false ∧
        ∃ nd, r.1 = .obj (jset kvs "meta_norm"
          (.obj (("date_norm", JVal.null) :: nd)))) := by
  refine ⟨rfl, rfl, ?_, ?_⟩
  · intro hb r hr
    unfold normalizeMsg at hr
    dsimp only at hr
    cases hd : apply_shift_and_format (dtNaiveOf kvs) shift with
    | error e =>
      rw [hd] at hr
      simp [Bind.bind, Except.bind] at hr
    | ok dn =>
      rw [hd] at hr
      simp only [Bind.bind, Except.bind] at hr
      rw [if_neg (by simp [hb])] at hr
      simp only [pure, Except.pure] at hr
      obtain rfl := Except.ok.inj hr
      exact ⟨_, rfl, rfl⟩
  · intro hdt hedt
    obtain ⟨r, hok, hch⟩ := normalizeMsg_degrade shift kvs hdt hedt
    obtain ⟨dn, ndtail, hdn, _, hshape⟩ := normalizeMsg_shape shift kvs r hok
    rw [hdt] at hdn
    simp only [apply_shift_and_format] at hdn
    obtain rfl := (Except.ok.inj hdn).symm
    exact ⟨r, hok, hch, ndtail, by rw [hshape]; rfl⟩

/-- A message carrying both an ISO `edited` string (year 2030) and an
epoch-seconds `edited_unixtime` string (epoch 0, year 1970). -/
def c8kvs : List (String × JVal) :=
  [("edited", .str "2030-01-01T00:00:00"), ("edited_unixtime", .str "0")]

/-- Claim C8 counterexample: with both edit fields present the code resolves
the edit timestamp from `edited_unixtime` (1970-01-01), not from the ISO
`edited` string (2030-01-01) the claimed preference order would pick. -/
theorem edited_resolution_order_cex :
    edtNaiveOf c8kvs = some ⟨1970, 1, 1, 0, 0, 0⟩ ∧
    editedResolutionSpec c8kvs = some ⟨2030, 1, 1, 0, 0, 0⟩ ∧
    edtNaiveOf c8kvs ≠ editedResolutionSpec c8kvs := by
  refine ⟨by decide, by decide, by decide⟩

/-- Witness: on the empty message both parse chains fail, and the message
still normalizes with a null `date_norm` and a false changed flag. -/
theorem timestamp_resolution_order_witness :
    dtNaiveOf ([] : List (String × JVal)) = none ∧
    edtNaiveOf ([] : List (String × JVal)) = none ∧
    ∃ r, normalizeMsg 0 (.obj ([] : List (String × JVal))) = .ok r ∧
      r.2 = false ∧
      ∃ nd, r.1 = .obj (jset [] "meta_norm"
        (.obj (("date_norm", JVal.null) :: nd))) :=
  ⟨rfl, rfl, (timestamp_resolution_order [] 0).2.2.2 rfl rfl⟩

/-! ## Invisibility of non-message records (claim C10) -/

/-- A fold whose body skips records failing the message guard equals the
fold over the filtered list. -/
theorem foldl_guard_filter {σ : Type} (f : σ → RawMsg → σ) :
    ∀ (msgs : List RawMsg) (init : σ),
      msgs.foldl (fun st m => if isMessage m then f st m else st) init =
      (msgs.filter isMessage).foldl f init := by
  intro msgs
  induction msgs with
  | nil => intro init; rfl
  | cons m t ih =>
    intro init
    rw [List.foldl_cons]
    by_cases hm : isMessage m = true
    · rw [if_pos hm, List.filter_cons_of_pos hm, List.foldl_cons, ih]
    · rw [if_neg hm, List.filter_cons_of_neg (by simpa using hm), ih]

/-- Claim C10: records whose type is not "message" are invisible — any two
documents with the same message-typed records (in the same order) produce
identical aggregate and social-graph outputs. -/
theorem service_records_invisible (msgs1 msgs2 : List RawMsg)
    (h : msgs1.filter isMessage = msgs2.filter isMessage) :
    build_aggregates_json msgs1 = build_aggregates_json msgs2 ∧
    build_social_graph msgs1 = build_social_graph msgs2 := by
  have hagg : aggPass1 msgs1 = aggPass1 msgs2 := by
    unfold aggPass1
    rw [foldl_guard_filter, foldl_guard_filter, h]
  have hth : ∀ par, threadPass msgs1 par = threadPass msgs2 par := by
    intro par
    unfold threadPass
    rw [foldl_guard_filter, foldl_guard_filter, h]
  have hpre : socPrePass msgs1 = socPrePass msgs2 := by
    unfold socPrePass
    rw [foldl_guard_filter, foldl_guard_filter, h]
  have hsoc : ∀ pre, socPass msgs1 pre = socPass msgs2 pre := by
    intro pre
    unfold socPass
    rw [foldl_guard_filter, foldl_guard_filter, h]
  constructor
  · dsimp only [build_aggregates_json]
    rw [hagg, hth]
  · dsimp only [build_social_graph]
    rw [hpre, hsoc]

/-- Message id 1, author A. -/
def c10m1 : RawMsg := { mtype := some "message", mid := some 1, from_id := some "A" }

/-- Message id 2, author B, replying to 1. -/
def c10m2 : RawMsg :=
  { mtype := some "message", mid := some 2, from_id := some "B", reply_to := some 1 }

/-- A service record. -/
def c10svc : RawMsg := { mtype := some "service", from_id := some "Z" }

/-- A document with a service record between the two messages. -/
def c10a : List RawMsg := [c10m1, c10svc, c10m2]

/-- The same document without the service record. -/
def c10b : List RawMsg := [c10m1, c10m2]

/-- Witness: inserting a service record leaves the aggregate output
unchanged. -/
theorem service_records_invisible_witness :
    c10a.filter isMessage = c10b.filter isMessage ∧
    build_aggregates_json c10a = build_aggregates_json c10b :=
  ⟨rfl, (service_records_invisible c10a c10b rfl).1⟩

end TCA
